import Mathlib

/-!
Shallow embedding of the Git repository change poller of this buildbot
snapshot (the `GitPoller` change source).  The snapshot ships the poller's
unit tests (`master/buildbot/test/unit/changes/test_gitpoller.py`) but not
`master/buildbot/changes/gitpoller.py` itself, so every operation below is
modelled from the specification (spec.md §3, §4.B-§4.L, §7) and pinned by
the scripted git conversations the unit tests expect.

Conventions of the embedding:
* the persistent cursor (`lastRev`) is an association list with Python-dict
  semantics (insertion order kept, in-place overwrite on an existing key);
* a git subprocess is an oracle `World.exec : command → args → exit × stdout`;
  non-zero exit is data, as in the injectable command runner of §4.A;
* a poll returns, besides the cursor and the emitted change records, the
  ordered trace of issued git commands, credential-scratch-directory events
  and credential file writes, so that per-invocation properties (spec §4.C)
  are stated on the trace;
* raising `EnvironmentError` is modelled as `ok = false` in the result.
-/

namespace GitPoller

/-- A mapping with Python-dict semantics: association list in insertion
order; `dictSet` overwrites in place on an existing key and appends a fresh
key at the end. -/
abbrev Dict := List (String × String)

def dictGet : Dict → String → Option String
  | [], _ => none
  | p :: d, k => if p.1 = k then some p.2 else dictGet d k

def dictMem : Dict → String → Bool
  | [], _ => false
  | p :: d, k => p.1 = k || dictMem d k

def dictReplace : Dict → String → String → Dict
  | [], _, _ => []
  | p :: d, k, v => (if p.1 = k then (k, v) else p) :: dictReplace d k v

def dictSet (d : Dict) (k v : String) : Dict :=
  if dictMem d k then dictReplace d k v else d ++ [(k, v)]

def dictKeys (d : Dict) : List String := d.map (fun p => p.1)

def dictValues (d : Dict) : List String := d.map (fun p => p.2)

/-! Character-list implementations of the string operations the pipeline
needs (split, trim, prefix test, numeric parse, lexicographic comparison);
structural recursion over `List Char` so that every concrete scenario
evaluates inside proofs. -/

def isPrefixOfCh : List Char → List Char → Bool
  | [], _ => true
  | _ :: _, [] => false
  | a :: as, b :: bs => a == b && isPrefixOfCh as bs

def startsWithStr (s p : String) : Bool := isPrefixOfCh p.data s.data

def splitOnCharGo (c : Char) : List Char → List Char → List String
  | acc, [] => [String.mk acc.reverse]
  | acc, x :: xs =>
      if x == c then String.mk acc.reverse :: splitOnCharGo c [] xs
      else splitOnCharGo c (x :: acc) xs

/-- Split on a one-character separator; `splitOnChar '\n' ""` is `[""]`,
like Python's `"".split("\n")`. -/
def splitOnChar (c : Char) (s : String) : List String := splitOnCharGo c [] s.data

def splitWhenGo (p : Char → Bool) : List Char → List Char → List String
  | acc, [] => [String.mk acc.reverse]
  | acc, x :: xs =>
      if p x then String.mk acc.reverse :: splitWhenGo p [] xs
      else splitWhenGo p (x :: acc) xs

def splitWhen (p : Char → Bool) (s : String) : List String := splitWhenGo p [] s.data

def trimCh (l : List Char) : List Char :=
  ((l.dropWhile Char.isWhitespace).reverse.dropWhile Char.isWhitespace).reverse

/-- Python's `str.strip()` on both ends, as `rev-parse` output is stripped. -/
def trimStr (s : String) : String := String.mk (trimCh s.data)

def digitsToNatGo : Nat → List Char → Option Nat
  | acc, [] => some acc
  | acc, c :: cs =>
      if c.isDigit then digitsToNatGo (acc * 10 + (c.toNat - 48)) cs else none

def strToNatQ (s : String) : Option Nat :=
  match s.data with
  | [] => none
  | l => digitsToNatGo 0 l

/-- Lexicographic (code-point) comparison, Python string ordering. -/
def leCh : List Char → List Char → Bool
  | [], _ => true
  | _ :: _, [] => false
  | a :: as, b :: bs =>
      if a.toNat < b.toNat then true
      else if b.toNat < a.toNat then false
      else leCh as bs

def leStr (a b : String) : Bool := leCh a.data b.data

/-- Stable insertion into a lexicographically sorted list of strings;
`sortStrings` models Python's `sorted` on the cursor's sha values. -/
def insertSorted (x : String) : List String → List String
  | [] => [x]
  | y :: ys => if leStr x y then x :: y :: ys else y :: insertSorted x ys

def sortStrings : List String → List String
  | [] => []
  | x :: xs => insertSorted x (sortStrings xs)

/-- Modelled from the spec: §3 "Ref" / §4.F — strip the `refs/heads/` prefix
from a full reference name, keep every other name unchanged. -/
def removeHeads (branch : String) : String :=
  if startsWithStr branch "refs/heads/" then String.mk (branch.data.drop 11) else branch

def hexDigit (n : Nat) : Char :=
  if n < 10 then Char.ofNat (48 + n) else Char.ofNat (55 + n)

/-- Modelled from the spec: §4.F "url-quoted" — percent-encode the repository
URL with path-reserved characters escaped (letters, digits, `_`, `.`, `-`
kept; tilde escaped as well: `git@example.com:~foo/baz.git` becomes
`git%40example.com%3A%7Efoo%2Fbaz.git`).  The snapshot's URLs are ASCII, and
the model encodes one character at a time. -/
def isUrlSafeChar (c : Char) : Bool :=
  (97 ≤ c.toNat ∧ c.toNat ≤ 122) ∨ (65 ≤ c.toNat ∧ c.toNat ≤ 90) ∨
    (48 ≤ c.toNat ∧ c.toNat ≤ 57) ∨ c = '_' ∨ c = '.' ∨ c = '-'

def urlquoteChar (c : Char) : List Char :=
  if isUrlSafeChar c then [c]
  else ['%', hexDigit (c.toNat / 16 % 16), hexDigit (c.toNat % 16)]

def urlquote (s : String) : String :=
  String.mk (s.data.map urlquoteChar).flatten

/-- Modelled from the spec: §3 "Workdir" — the namespaced local mirror ref
`refs/buildbot/<url-quoted>/<branch>` that tracks a polled branch. -/
def trackerBranch (repourl branch : String) : String :=
  "refs/buildbot/" ++ urlquote repourl ++ "/" ++ removeHeads branch

/-- Modelled from the spec: §9 "Branch policy as a sum type" — an explicit
list of short names, all remote refs, or a predicate on full ref names. -/
inductive BranchPolicy
  | explicitList (bs : List String)
  | allRefs
  | selector (f : String → Bool)

/-- Modelled from the spec: §6 "Configuration surface" (the options the
polled pipeline reads; construction-time validation is out of scope of the
claims). -/
structure Config where
  repourl : String
  workdir : String
  branches : BranchPolicy
  buildPushesWithNoCommits : Bool
  sshPrivateKey : Option String
  sshHostKey : Option String
  sshKnownHosts : Option String
  project : String
  category : Option String

/-- One issued git invocation: `pre` are the arguments inserted directly
after `git` (the `-c core.sshCommand=…` decoration), `env` the environment
overlay (`GIT_SSH_COMMAND`). -/
structure GitCmd where
  pre : List String
  cmd : String
  args : List String
  env : List (String × String)
  deriving Repr, DecidableEq

/-- Observable side effects of a poll, in order: issued git commands,
credential scratch directory creation/removal (spec §4.C), credential file
writes, and logged per-branch soft-failure errors (spec §7). -/
inductive Event
  | cmd (c : GitCmd)
  | mkPrivDir (path : String) (mode : Nat)
  | rmPrivDir (path : String)
  | fileWrite (path : String) (contents : String) (mode : Option Nat)
  | logErr
  deriving Repr, DecidableEq

/-- Modelled from the spec: §3 "Change Record" (the fields the claims
inspect; `branch` is the short name, `src` is always `"git"`). -/
structure Change where
  author : String
  committer : String
  branch : String
  category : Option String
  comments : String
  files : List String
  project : String
  repository : String
  revision : String
  src : String
  whenTimestamp : Nat
  deriving Repr, DecidableEq

/-- The injectable command runner of spec §4.A together with the commit
metadata extractors of §4.I (the unit tests patch the extractors to pure
functions of the sha, which is how they are modelled here). -/
structure World where
  exec : String → List String → Nat × String
  commitAuthor : String → String
  commitCommitter : String → String
  commitComments : String → String
  commitFiles : String → List String
  commitTimestamp : String → Nat

/-- Modelled from the spec: §4.B Feature Probe — parse
`git version <major>.<minor>[.<patch>]…`; `none` models the
`EnvironmentError` on non-matching output. -/
def parseGitVersion (out : String) : Option (Nat × Nat) :=
  if startsWithStr out "git version " then
    match (splitOnChar '.' (trimStr (String.mk (out.data.drop 12)))).map strToNatQ with
    | some major :: some minor :: _ => some (major, minor)
    | [some major] => some (major, 0)
    | _ => none
  else none

def versionAtLeast (v : Nat × Nat) (a b : Nat) : Bool :=
  a < v.1 ∨ (v.1 = a ∧ b ≤ v.2)

/-- Modelled from the spec: §3 "Credential Scratch" — the private temp
directory under the workdir. -/
def privDirPath (workdir : String) : String := workdir ++ "/.buildbot-ssh@@@"

def sshKeyPath (workdir : String) : String := privDirPath workdir ++ "/ssh-key"

def sshKnownHostsPath (workdir : String) : String :=
  privDirPath workdir ++ "/ssh-known-hosts"

/-- Modelled from the spec: §4.C step 2 — write the private key "ensuring a
trailing newline". -/
def endsWithNewline (s : String) : Bool := s.data.getLast? == some '\n'

def ensureSshKeyNewline (key : String) : String :=
  if endsWithNewline key then key else key ++ "\n"

/-- Modelled from the spec: §4.C — contents of the `ssh-known-hosts` file:
a single-line host key is wrapped to `* <sshHostKey>`, verbatim known-hosts
contents are taken as given. -/
def knownHostsContents (cfg : Config) : Option String :=
  match cfg.sshHostKey with
  | some hk => some ("* " ++ hk)
  | none => cfg.sshKnownHosts

/-- Modelled from the spec: §4.C step 4 — the ssh command string. -/
def sshCommandStr (kp : String) (khp : Option String) : String :=
  "ssh -o \"BatchMode=yes\" -i \"" ++ kp ++ "\"" ++
    match khp with
    | some p => " -o \"UserKnownHostsFile=" ++ p ++ "\""
    | none => ""

/-- The git subcommands that touch the remote and therefore need the SSH
credentials (spec §4.C, §8 invariant 5). -/
def remoteCommands : List String := ["ls-remote", "fetch"]

structure RunResult where
  exit : Nat
  stdout : String
  events : List Event

/-- Modelled from the spec: §4.A and §4.C — run one git invocation.  When an
SSH private key is configured and the subcommand touches the remote, a
private temp directory (mode 0700) is created, the credential files written
(key mode 0400), the decoration attached (`-c core.sshCommand=…` for
git ≥ 2.10, `GIT_SSH_COMMAND` in the environment overlay otherwise), and the
scratch directory is removed when the invocation completes, success or
failure. -/
def runGit (cfg : Config) (v : Nat × Nat) (w : World)
    (cmd : String) (args : List String) : RunResult :=
  let r := w.exec cmd args
  match cfg.sshPrivateKey with
  | some key =>
      if remoteCommands.contains cmd then
        let dir := privDirPath cfg.workdir
        let kp := sshKeyPath cfg.workdir
        let khc := knownHostsContents cfg
        let khp := if khc.isSome then some (sshKnownHostsPath cfg.workdir) else none
        let sshCmd := sshCommandStr kp khp
        let decoration :=
          if versionAtLeast v 2 10 then
            (["-c", "core.sshCommand=" ++ sshCmd], ([] : List (String × String)))
          else
            ([], [("GIT_SSH_COMMAND", sshCmd)])
        let khWrites :=
          match khc, khp with
          | some c, some p => [Event.fileWrite p c none]
          | _, _ => []
        { exit := r.1, stdout := r.2,
          events := [Event.mkPrivDir dir 448,
            Event.fileWrite kp (ensureSshKeyNewline key) (some 256)] ++ khWrites ++
            [Event.cmd ⟨decoration.1, cmd, args, decoration.2⟩, Event.rmPrivDir dir] }
      else
        { exit := r.1, stdout := r.2, events := [Event.cmd ⟨[], cmd, args, []⟩] }
  | none => { exit := r.1, stdout := r.2, events := [Event.cmd ⟨[], cmd, args, []⟩] }

/-- Modelled from the spec: §4.D Remote Enumerator — parse each non-empty
`<sha>\t<ref>` line of `ls-remote --refs` output into an ordered ref → sha
mapping. -/
def parseLsRemote (out : String) : List (String × String) :=
  (splitOnChar '\n' out).filterMap (fun line =>
    match splitOnChar '\t' line with
    | [sha, ref] => if sha ≠ "" ∧ ref ≠ "" then some (ref, sha) else none
    | _ => none)

/-- Modelled from the spec: §4.E Branch Selector — resolve the branch policy
against the enumerated remote refs to the ordered list of branch keys to
poll.  An explicitly listed short name with no matching remote ref is
silently skipped. -/
def selectBranches (policy : BranchPolicy) (remoteRefs : List (String × String)) :
    List String :=
  match policy with
  | .explicitList bs => bs.filter (fun b => remoteRefs.any (fun r => removeHeads r.1 == b))
  | .allRefs => remoteRefs.map (fun r => r.1)
  | .selector f => (remoteRefs.map (fun r => r.1)).filter f

/-- Loop state of the per-branch processing: the evolving cursor
(`lastRev`), the tips resolved this cycle (`revs`), the emitted change
records and the event trace. -/
structure PollState where
  lastRev : Dict
  revs : Dict
  changes : List Change
  events : List Event

/-- The `git log` revision-list arguments for one branch (spec §4.H): the
target tip followed by `^<sha>` for every sha in the lexicographically
sorted list of the cursor's current values. -/
def logArgs (lastRev : Dict) (newRev : String) : List String :=
  ["--ignore-missing", "--format=%H", newRev] ++
    (sortStrings (dictValues lastRev)).map (fun r => "^" ++ r) ++ ["--"]

/-- Python `str.split()` on the revision-list output: whitespace-separated
tokens, empty output giving the empty list. -/
def splitWs (s : String) : List String :=
  (splitWhen Char.isWhitespace s).filter (fun t => t ≠ "")

/-- The final revision list of spec §4.H for one branch: the reversed
(oldest-first) `git log` output, replaced by the single synthesized tip when
`buildPushesWithNoCommits` is set, the list is empty and the branch's
current cursor entry differs from the new tip. -/
def computedRevList (cfg : Config) (lastRev : Dict) (branch newRev output : String) :
    List String :=
  let revList := (splitWs output).reverse
  if cfg.buildPushesWithNoCommits ∧ revList.isEmpty ∧
      dictGet lastRev branch ≠ some newRev then
    [newRev]
  else revList

def mkChange (cfg : Config) (w : World) (branch rev : String) : Change :=
  { author := w.commitAuthor rev
    committer := w.commitCommitter rev
    branch := removeHeads branch
    category := cfg.category
    comments := w.commitComments rev
    files := w.commitFiles rev
    project := cfg.project
    repository := cfg.repourl
    revision := rev
    src := "git"
    whenTimestamp := w.commitTimestamp rev }

/-- Modelled from the spec: §4.H Commit-Set Computer for one branch with
newly resolved tip `newRev`.  On the initial run (empty cursor) nothing is
enumerated and the cursor is left untouched (the tips are recorded through
`revs`).  Otherwise `git log --ignore-missing --format=%H <new> <excludes> --`
runs with `^<sha>` for every value of the current cursor; on non-zero exit
the failure is a logged per-branch soft failure (spec §4.H: the cursor still
advances, through `revs`); on success the reversed (oldest-first) revision
list is emitted, with a single synthesized change for `newRev` when
`buildPushesWithNoCommits` is set, the list is empty and the branch's cursor
entry differs from `newRev` (as `test_poll_multipleBranches_buildPushesWithNoCommits_*`
pin), and the branch's cursor entry is set to `newRev` before emission. -/
def processChanges (cfg : Config) (v : Nat × Nat) (w : World)
    (st : PollState) (branch newRev : String) : PollState :=
  if st.lastRev.isEmpty then st
  else
    let r := runGit cfg v w "log" (logArgs st.lastRev newRev)
    let st1 := { st with events := st.events ++ r.events }
    if r.exit ≠ 0 then
      { st1 with events := st1.events ++ [Event.logErr] }
    else
      let revList := computedRevList cfg st1.lastRev branch newRev r.stdout
      { st1 with
        lastRev := dictSet st1.lastRev branch newRev
        changes := st1.changes ++ revList.map (mkChange cfg w branch) }

/-- Modelled from the spec: §4.G Revision Resolver plus the per-branch loop
body.  `rev-parse` of the mirrored ref resolves the tip (output stripped of
surrounding whitespace); non-zero exit is a logged per-branch soft failure
that does not update the cursor for that branch (spec §4.G, §4.K: the failed
branch keeps its old entry in the persisted cursor) and lets the remaining
branches continue. -/
def processBranch (cfg : Config) (v : Nat × Nat) (w : World)
    (st : PollState) (branch : String) : PollState :=
  let r := runGit cfg v w "rev-parse" [trackerBranch cfg.repourl branch]
  let st1 := { st with events := st.events ++ r.events }
  if r.exit ≠ 0 then
    let st2 := { st1 with events := st1.events ++ [Event.logErr] }
    match dictGet st2.lastRev branch with
    | some old => { st2 with revs := dictSet st2.revs branch old }
    | none => st2
  else
    let newRev := trimStr r.stdout
    let st2 := { st1 with revs := dictSet st1.revs branch newRev }
    processChanges cfg v w st2 branch newRev

def processBranches (cfg : Config) (v : Nat × Nat) (w : World)
    (st : PollState) (branches : List String) : PollState :=
  branches.foldl (processBranch cfg v w) st

/-- Result of one `poll()`: `ok = false` models `EnvironmentError`
propagating out of the poll; `persisted` is the cursor written to the state
store (spec §4.K), `none` when the poll did not reach persistence. -/
structure PollResult where
  ok : Bool
  lastRev : Dict
  persisted : Option Dict
  changes : List Change
  events : List Event

/-- Modelled from the spec: §4.L Poll Orchestrator — feature probe, then
`init --bare` (exit 128 is a logged `GitError` that ends the poll without
error or persistence), `ls-remote --refs` (non-zero exit aborts), the
`doPoll.running` gate (when false the poll stops after enumeration without
mutating the cursor), branch selection, a single `fetch --progress` with the
namespaced refspecs (non-zero exit aborts without touching the cursor), the
per-branch loop, and finally wholesale replacement and persistence of the
cursor with the tips of the branches polled this cycle (spec §4.K). -/
def poll (cfg : Config) (running : Bool) (lastRev0 : Dict) (w : World) : PollResult :=
  let pv := w.exec "--version" []
  let ev0 := [Event.cmd ⟨[], "--version", [], []⟩]
  match parseGitVersion pv.2 with
  | none =>
      { ok := false, lastRev := lastRev0, persisted := none, changes := [], events := ev0 }
  | some v =>
      if cfg.sshPrivateKey.isSome ∧ ¬ versionAtLeast v 2 3 then
        { ok := false, lastRev := lastRev0, persisted := none, changes := [], events := ev0 }
      else
        let rinit := runGit cfg v w "init" ["--bare", cfg.workdir]
        let ev1 := ev0 ++ rinit.events
        if rinit.exit = 128 then
          { ok := true, lastRev := lastRev0, persisted := none, changes := [], events := ev1 }
        else if rinit.exit ≠ 0 then
          { ok := false, lastRev := lastRev0, persisted := none, changes := [], events := ev1 }
        else
          let rls := runGit cfg v w "ls-remote" ["--refs", cfg.repourl]
          let ev2 := ev1 ++ rls.events
          if rls.exit ≠ 0 then
            { ok := false, lastRev := lastRev0, persisted := none, changes := [], events := ev2 }
          else if ¬ running then
            { ok := true, lastRev := lastRev0, persisted := none, changes := [], events := ev2 }
          else
            let branches := selectBranches cfg.branches (parseLsRemote rls.stdout)
            let refspecs := branches.map (fun b =>
              "+" ++ removeHeads b ++ ":" ++ trackerBranch cfg.repourl b)
            let rf := runGit cfg v w "fetch" (["--progress", cfg.repourl] ++ refspecs)
            let ev3 := ev2 ++ rf.events
            if rf.exit ≠ 0 then
              { ok := false, lastRev := lastRev0, persisted := none, changes := [], events := ev3 }
            else
              let st := processBranches cfg v w
                { lastRev := lastRev0, revs := [], changes := [], events := ev3 } branches
              { ok := true, lastRev := st.revs, persisted := some st.revs,
                changes := st.changes, events := st.events }

/-- The branch keys a poll of configuration `cfg` against world `w` will
process: the branch policy resolved against the parsed `ls-remote`
output. -/
def selectedBranches (cfg : Config) (w : World) : List String :=
  selectBranches cfg.branches (parseLsRemote (w.exec "ls-remote" ["--refs", cfg.repourl]).2)

/-- The argument vector of the single fetch of spec §4.F. -/
def fetchArgs (cfg : Config) (w : World) : List String :=
  ["--progress", cfg.repourl] ++ (selectedBranches cfg w).map (fun b =>
    "+" ++ removeHeads b ++ ":" ++ trackerBranch cfg.repourl b)

/-- The loop state a completing poll enters the per-branch loop with. -/
def pollStart (cfg : Config) (v : Nat × Nat) (w : World) (c0 : Dict) : PollState :=
  { lastRev := c0
    revs := []
    changes := []
    events := (([Event.cmd ⟨[], "--version", [], []⟩]
        ++ (runGit cfg v w "init" ["--bare", cfg.workdir]).events)
        ++ (runGit cfg v w "ls-remote" ["--refs", cfg.repourl]).events)
        ++ (runGit cfg v w "fetch" (fetchArgs cfg w)).events }

/-- Modelled from the spec: §4.I — decode one file name from
`git log --name-only` output: a line wrapped in double quotes has its
C-style escapes (octal `\ooo` and the common single-character escapes)
decoded, any other line is kept verbatim. -/
def decodeEscapesGo : Nat → List Char → List Char
  | 0, _ => []
  | _, [] => []
  | fuel + 1, c :: cs =>
    if c = '\\' then
      match cs with
      | [] => ['\\']
      | d :: ds =>
        if '0' ≤ d ∧ d ≤ '7' then
          match ds with
          | e :: es =>
            if '0' ≤ e ∧ e ≤ '7' then
              match es with
              | f :: fs =>
                if '0' ≤ f ∧ f ≤ '7' then
                  Char.ofNat ((d.toNat - 48) * 64 + (e.toNat - 48) * 8 + (f.toNat - 48))
                    :: decodeEscapesGo fuel fs
                else
                  Char.ofNat ((d.toNat - 48) * 8 + (e.toNat - 48)) :: decodeEscapesGo fuel es
              | [] => [Char.ofNat ((d.toNat - 48) * 8 + (e.toNat - 48))]
            else Char.ofNat (d.toNat - 48) :: decodeEscapesGo fuel ds
          | [] => [Char.ofNat (d.toNat - 48)]
        else if d = 'n' then '\n' :: decodeEscapesGo fuel ds
        else if d = 't' then '\t' :: decodeEscapesGo fuel ds
        else if d = '\\' then '\\' :: decodeEscapesGo fuel ds
        else if d = '"' then '"' :: decodeEscapesGo fuel ds
        else '\\' :: d :: decodeEscapesGo fuel ds
    else c :: decodeEscapesGo fuel cs

def decodeEscapes (l : List Char) : List Char := decodeEscapesGo l.length l

def decodeFile (s : String) : String :=
  let cs := s.data
  if cs.head? = some '"' ∧ cs.getLast? = some '"' ∧ 2 ≤ cs.length then
    String.mk (decodeEscapes ((cs.drop 1).dropLast))
  else s

/-- Modelled from the spec: §4.I — split the `--name-only` output into
lines, drop empty and whitespace-only lines, and decode each remaining
name. -/
def getCommitFilesOutput (gitOutput : String) : List String :=
  ((splitOnChar '\n' gitOutput).filter (fun s => !(trimCh s.data).isEmpty)).map decodeFile

/-- Modelled from the spec: §4.I — the commit files extractor: run
`git log --name-only --no-walk --format=%n <sha> --` and decode the output;
empty output is allowed, non-zero exit raises (`none`). -/
def getCommitFiles (w : World) (rev : String) : Option (List String) :=
  let r := w.exec "log" ["--name-only", "--no-walk", "--format=%n", rev, "--"]
  if r.1 = 0 then some (getCommitFilesOutput r.2) else none

/-! Spec-side definitions used to compare the modelled behaviour with the
words of the specification (refinement checks). -/

/-- The exclude list exactly as the spec's §4.H sentence words it: `^<sha>`
for every sha in the cursor *snapshot*, deduplicated, excluding the new tip
itself, sorted lexicographically.  This definition follows the spec's words,
not the modelled pipeline, and is compared against the trace the pipeline
produces. -/
def specClaimedExcludes (snapshot : Dict) (newRev : String) : List String :=
  (sortStrings (((dictValues snapshot).eraseDups).filter (fun r => r ≠ newRev))).map
    (fun r => "^" ++ r)

/-- The cursor an initial poll should leave behind, as the spec's §4.H words
it for initial branches: each polled branch mapped to its newly resolved
(stripped) `rev-parse` tip, branches whose `rev-parse` fails omitted. -/
def resolvedTips (cfg : Config) (w : World) (bs : List String) : Dict :=
  bs.foldl (fun d q =>
    let r := w.exec "rev-parse" [trackerBranch cfg.repourl q]
    if r.1 = 0 then dictSet d q (trimStr r.2) else d) []

/-! Trace observers for the credential-scratch lifecycle. -/

/-- Net scratch-directory nesting along a trace: `none` as soon as a removal
happens with no directory outstanding, otherwise the number of directories
still outstanding at the end. -/
def netOpenGo : Nat → List Event → Option Nat
  | n, [] => some n
  | n, Event.mkPrivDir _ _ :: r => netOpenGo (n + 1) r
  | n, Event.rmPrivDir _ :: r => if n = 0 then none else netOpenGo (n - 1) r
  | n, _ :: r => netOpenGo n r

def netOpen (l : List Event) : Option Nat := netOpenGo 0 l

def mkPrivDirCount (l : List Event) : Nat :=
  (l.filter (fun e => match e with | Event.mkPrivDir _ _ => true | _ => false)).length

def remoteCmdCount (l : List Event) : Nat :=
  (l.filter (fun e => match e with
    | Event.cmd c => remoteCommands.contains c.cmd
    | _ => false)).length

/-- The decoration spec §4.C prescribes for a remote-touching git command
when `core.sshCommand` is available. -/
def expectedSshPre (cfg : Config) : List String :=
  ["-c", "core.sshCommand=" ++ sshCommandStr (sshKeyPath cfg.workdir)
    (if (knownHostsContents cfg).isSome then some (sshKnownHostsPath cfg.workdir) else none)]

/-- Picks the full argument vectors of the `git log` revision-list commands
issued for target tip `target` out of a trace. -/
def logCmdArgsFor (target : String) (e : Event) : Option (List String) :=
  match e with
  | Event.cmd c =>
      if c.cmd = "log" ∧ c.args.take 3 = ["--ignore-missing", "--format=%H", target] then
        some c.args
      else none
  | _ => none

/-! Concrete fixtures: the scripted git conversations of the unit tests,
used for counterexamples and witnesses.  Shas and outputs are the ones the
tests hard-code. -/

def shaM4423 : String := "4423cdbcbb89c14e50dd5f4152415afd686c5241"

def shaM64a5 : String := "64a5dc2a4bd4f558b5dd193d47c83c7d7abc9a1a"

def shaR9118 : String := "9118f4ab71963d23d02d4bdc54876ac8bf05acf2"

def shaBf0b : String := "bf0b01df6d00ae8d1ffa0b2e2acbe642a6cd35d5"

def shaFa3a : String := "fa3ae8ed68e664d4db24798611b352e3c6509930"

def sha0ba9 : String := "0ba9d553b7217ab4bbad89ad56dc0332c7d57a8c"

def repoUrl : String := "git@example.com:~foo/baz.git"

def workDir : String := "basedir/gitpoller-work"

/-- Commit metadata stubs matching the `_get_commit_*` patches the poll
tests install (`author = 'by:' + rev[:8]`, `files = ['/etc/' + rev[:3]]`,
fixed comments and timestamp). -/
def stubWorld (ex : String → List String → Nat × String) : World :=
  { exec := ex
    commitAuthor := fun r => "by:" ++ String.mk (r.data.take 8)
    commitCommitter := fun r => "by:" ++ String.mk (r.data.take 8)
    commitComments := fun _ => "hello!"
    commitFiles := fun r => ["/etc/" ++ String.mk (r.data.take 3)]
    commitTimestamp := fun _ => 1273258009 }

def cfgBase : Config :=
  { repourl := repoUrl
    workdir := workDir
    branches := BranchPolicy.explicitList ["master"]
    buildPushesWithNoCommits := false
    sshPrivateKey := none
    sshHostKey := none
    sshKnownHosts := none
    project := ""
    category := none }

/-- `test_poll_multipleBranches`: revision-list outputs keyed by the exact
argument vectors the test scripts; anything else yields empty output. -/
def logOutMulti (args : List String) : String :=
  if args = logArgs [("master", shaFa3a), ("release", shaBf0b)] shaM4423 then
    shaM64a5 ++ "\n" ++ shaM4423
  else if args = logArgs [("master", shaM4423), ("release", shaBf0b)] shaR9118 then
    shaR9118
  else ""

def execMulti (cmd : String) (args : List String) : Nat × String :=
  if cmd = "--version" then (0, "git version 1.7.5\n")
  else if cmd = "init" then (0, "")
  else if cmd = "ls-remote" then
    (0, shaR9118 ++ "\trefs/heads/release\n" ++ shaM4423 ++ "\trefs/heads/master\n")
  else if cmd = "fetch" then (0, "")
  else if cmd = "rev-parse" then
    if args = [trackerBranch repoUrl "master"] then (0, shaM4423 ++ "\n")
    else if args = [trackerBranch repoUrl "release"] then (0, shaR9118)
    else (1, "")
  else if cmd = "log" then (0, logOutMulti args)
  else (1, "")

def wMulti : World := stubWorld execMulti

def cfgMulti : Config :=
  { cfgBase with branches := BranchPolicy.explicitList ["master", "release"] }

def lastRevMulti : Dict := [("master", shaFa3a), ("release", shaBf0b)]

/-- `test_poll_multipleBranches_buildPushesWithNoCommits_true_not_tip`:
only `release` is polled, the cursor holds only a `master` entry, every
revision-list invocation returns empty output. -/
def execNotTip (cmd : String) (args : List String) : Nat × String :=
  if cmd = "--version" then (0, "git version 1.7.5\n")
  else if cmd = "init" then (0, "")
  else if cmd = "ls-remote" then (0, shaM4423 ++ "\trefs/heads/release\n")
  else if cmd = "fetch" then (0, "")
  else if cmd = "rev-parse" then
    if args = [trackerBranch repoUrl "release"] then (0, shaM4423 ++ "\n") else (1, "")
  else if cmd = "log" then (0, "")
  else (1, "")

def wNotTip : World := stubWorld execNotTip

def cfgNotTip : Config :=
  { cfgBase with
    branches := BranchPolicy.explicitList ["release"]
    buildPushesWithNoCommits := true }

def lastRevNotTip : Dict := [("master", sha0ba9)]

/-- `test_poll_multipleBranches_initial`: empty cursor, three configured
branches of which `not_on_remote` is absent from the remote. -/
def execInitial (cmd : String) (args : List String) : Nat × String :=
  if cmd = "--version" then (0, "git version 1.7.5\n")
  else if cmd = "init" then (0, "")
  else if cmd = "ls-remote" then
    (0, shaR9118 ++ "\trefs/heads/release\n" ++ shaM4423 ++ "\trefs/heads/master\n")
  else if cmd = "fetch" then (0, "")
  else if cmd = "rev-parse" then
    if args = [trackerBranch repoUrl "master"] then (0, shaM4423 ++ "\n")
    else if args = [trackerBranch repoUrl "release"] then (0, shaR9118)
    else (1, "")
  else if cmd = "log" then (0, "")
  else (1, "")

def wInitial : World := stubWorld execInitial

def cfgInitial : Config :=
  { cfgBase with branches := BranchPolicy.explicitList ["master", "release", "not_on_remote"] }

/-- `test_poll_multipleBranches_buildPushesWithNoCommits_true_fast_forward`:
`release` fast-forwarded to the sha already held by `master`; the
revision-list output is empty. -/
def execFastForward (cmd : String) (args : List String) : Nat × String :=
  if cmd = "--version" then (0, "git version 1.7.5\n")
  else if cmd = "init" then (0, "")
  else if cmd = "ls-remote" then (0, shaM4423 ++ "\trefs/heads/release\n")
  else if cmd = "fetch" then (0, "")
  else if cmd = "rev-parse" then
    if args = [trackerBranch repoUrl "release"] then (0, shaM4423 ++ "\n") else (1, "")
  else if cmd = "log" then (0, "")
  else (1, "")

def wFastForward : World := stubWorld execFastForward

def cfgFastForward : Config :=
  { cfgBase with
    branches := BranchPolicy.explicitList ["release"]
    buildPushesWithNoCommits := true }

def lastRevFastForward : Dict := [("master", shaM4423), ("release", sha0ba9)]

/-- `test_poll_branchFilter`: a predicate branch policy selecting
`refs/pull/410/head`; the stale `master` cursor entry must be dropped. -/
def execBranchFilter (cmd : String) (args : List String) : Nat × String :=
  if cmd = "--version" then (0, "git version 1.7.5\n")
  else if cmd = "init" then (0, "")
  else if cmd = "ls-remote" then
    (0, shaM4423 ++ "\trefs/pull/410/merge\n" ++ shaR9118 ++ "\trefs/pull/410/head\n")
  else if cmd = "fetch" then (0, "")
  else if cmd = "rev-parse" then
    if args = [trackerBranch repoUrl "refs/pull/410/head"] then (0, shaR9118) else (1, "")
  else if cmd = "log" then (0, shaR9118)
  else (1, "")

def wBranchFilter : World := stubWorld execBranchFilter

def cfgBranchFilter : Config :=
  { cfgBase with
    branches := BranchPolicy.selector (fun r => r = "refs/pull/410/head") }

def lastRevBranchFilter : Dict :=
  [("master", shaFa3a), ("refs/pull/410/head", shaBf0b)]

/-- `test_poll_failLog`: every revision-list command exits non-zero. -/
def execFailLog (cmd : String) (args : List String) : Nat × String :=
  if cmd = "--version" then (0, "git version 1.7.5\n")
  else if cmd = "init" then (0, "")
  else if cmd = "ls-remote" then (0, shaM4423 ++ "\trefs/heads/master\n")
  else if cmd = "fetch" then (0, "")
  else if cmd = "rev-parse" then
    if args = [trackerBranch repoUrl "master"] then (0, shaM4423 ++ "\n") else (1, "")
  else (1, "")

def wFailLog : World := stubWorld execFailLog

def lastRevFailLog : Dict := [("master", shaFa3a)]

/-- `test_poll_failRevParse`: the only polled branch's `rev-parse` exits
non-zero. -/
def execFailRevParse (cmd : String) (_args : List String) : Nat × String :=
  if cmd = "--version" then (0, "git version 1.7.5\n")
  else if cmd = "init" then (0, "")
  else if cmd = "ls-remote" then (0, shaM4423 ++ "\trefs/heads/master\n")
  else if cmd = "fetch" then (0, "")
  else (1, "")

def wFailRevParse : World := stubWorld execFailRevParse

/-- `test_poll_nothingNew`: the resolved tip equals the cursor entry and the
revision-list output is empty. -/
def execNothingNew (cmd : String) (args : List String) : Nat × String :=
  if cmd = "--version" then (0, "git version 1.7.5\n")
  else if cmd = "init" then (0, "")
  else if cmd = "ls-remote" then (0, shaM4423 ++ "\trefs/heads/master\n")
  else if cmd = "fetch" then (0, "no interesting output")
  else if cmd = "rev-parse" then
    if args = [trackerBranch repoUrl "master"] then (0, shaM4423 ++ "\n") else (1, "")
  else if cmd = "log" then (0, "")
  else (1, "")

def wNothingNew : World := stubWorld execNothingNew

def lastRevNothingNew : Dict := [("master", shaM4423)]

/-- `test_poll_failFetch_git_2_10` of `TestGitPollerWithSshPrivateKey`:
git 2.10 with an SSH key, the fetch fails. -/
def execSshFailFetch (cmd : String) (_args : List String) : Nat × String :=
  if cmd = "--version" then (0, "git version 2.10.0\n")
  else if cmd = "init" then (0, "")
  else if cmd = "ls-remote" then (0, shaM4423 ++ "\trefs/heads/master\n")
  else (1, "")

def wSshFailFetch : World := stubWorld execSshFailFetch

def cfgSsh : Config := { cfgBase with sshPrivateKey := some "ssh-key" }

/-- `test_get_commit_files`: the scripted `--name-only` output with an
octal-escaped quoted name and a name containing a space. -/
def dummyRevStr : String := "12345abcde"

def execFilesOctal (cmd : String) (args : List String) : Nat × String :=
  if cmd = "log" ∧ args = ["--name-only", "--no-walk", "--format=%n", dummyRevStr, "--"] then
    (0, "\n\nfile1\nfile2\n\"\\146ile_octal\"\nfile space")
  else (1, "")

def wFilesOctal : World := stubWorld execFilesOctal

def execFilesEmpty (cmd : String) (args : List String) : Nat × String :=
  if cmd = "log" ∧ args = ["--name-only", "--no-walk", "--format=%n", dummyRevStr, "--"] then
    (0, "")
  else (1, "")

def wFilesEmpty : World := stubWorld execFilesEmpty

/-! General lemmas about the dictionary operations. -/

theorem dictReplace_of_not_mem (d : Dict) (k v : String) (h : dictMem d k = false) :
    dictReplace d k v = d := by
  induction d with
  | nil => rfl
  | cons p d ih =>
      simp only [dictMem, Bool.or_eq_false_iff, decide_eq_false_iff_not] at h
      simp [dictReplace, h.1, ih h.2]

theorem dictGet_dictReplace_self (d : Dict) (k v : String) (h : dictMem d k = true) :
    dictGet (dictReplace d k v) k = some v := by
  induction d with
  | nil => simp [dictMem] at h
  | cons p d ih =>
      by_cases hp : p.1 = k
      · simp [dictReplace, dictGet, hp]
      · simp only [dictMem, Bool.or_eq_true, decide_eq_true_eq] at h
        simp [dictReplace, dictGet, hp, ih (h.resolve_left hp)]

theorem dictGet_append_single_self (d : Dict) (k v : String) (h : dictMem d k = false) :
    dictGet (d ++ [(k, v)]) k = some v := by
  induction d with
  | nil => simp [dictGet]
  | cons p d ih =>
      simp only [dictMem, Bool.or_eq_false_iff, decide_eq_false_iff_not] at h
      simp [dictGet, h.1, ih h.2]

theorem dictGet_dictSet_self (d : Dict) (k v : String) :
    dictGet (dictSet d k v) k = some v := by
  unfold dictSet
  by_cases h : dictMem d k <;>
    simp [h, dictGet_dictReplace_self, dictGet_append_single_self]

theorem dictGet_dictReplace_ne (d : Dict) (k x v : String) (h : x ≠ k) :
    dictGet (dictReplace d k v) x = dictGet d x := by
  induction d with
  | nil => rfl
  | cons p d ih =>
      by_cases hp : p.1 = k
      · simp only [dictReplace, hp, if_pos, dictGet]
        rw [if_neg (fun hh => h hh.symm), if_neg (fun hh => h hh.symm), ih]
      · simp only [dictReplace, hp, if_neg, not_false_eq_true, if_false, dictGet, ih]

theorem dictGet_append_single_ne (d : Dict) (k x v : String) (h : x ≠ k) :
    dictGet (d ++ [(k, v)]) x = dictGet d x := by
  induction d with
  | nil =>
      simp only [List.nil_append, dictGet]
      rw [if_neg (fun hh => h hh.symm)]
  | cons p d ih =>
      by_cases hp : p.1 = x <;> simp [dictGet, hp, ih]

theorem dictGet_dictSet_ne (d : Dict) (k x v : String) (h : x ≠ k) :
    dictGet (dictSet d k v) x = dictGet d x := by
  unfold dictSet
  by_cases hm : dictMem d k
  · simp [hm, dictGet_dictReplace_ne _ _ _ _ h]
  · simp [hm, dictGet_append_single_ne _ _ _ _ h]

theorem dictSet_ne_nil (d : Dict) (k v : String) : dictSet d k v ≠ [] := by
  unfold dictSet
  by_cases hm : dictMem d k
  · cases d with
    | nil => simp [dictMem] at hm
    | cons p d => simp [hm, dictReplace]
  · simp [hm]

theorem dictMem_of_dictGet (d : Dict) (k v : String) (h : dictGet d k = some v) :
    dictMem d k = true := by
  induction d with
  | nil => simp [dictGet] at h
  | cons p d ih =>
      by_cases hp : p.1 = k
      · simp [dictMem, hp]
      · simp only [dictGet, hp, if_neg, not_false_eq_true, if_false] at h
        simp [dictMem, hp, ih h]

theorem mem_keys_of_dictMem (d : Dict) (k : String) (h : dictMem d k = true) :
    k ∈ dictKeys d := by
  induction d with
  | nil => simp [dictMem] at h
  | cons p d ih =>
      simp only [dictMem, Bool.or_eq_true, decide_eq_true_eq] at h
      rcases h with h | h
      · simp [dictKeys, h]
      · simp only [dictKeys, List.map_cons, List.mem_cons]
        exact Or.inr (by simpa [dictKeys] using ih h)

theorem dictSet_preserve (d : Dict) (k v : String)
    (hnd : (dictKeys d).Nodup) (h : dictGet d k = some v) : dictSet d k v = d := by
  induction d with
  | nil => simp [dictGet] at h
  | cons p d ih =>
      obtain ⟨pk, pv⟩ := p
      simp only [dictKeys, List.map_cons, List.nodup_cons] at hnd
      by_cases hp : pk = k
      · subst hp
        simp only [dictGet, if_pos, Option.some.injEq] at h
        subst h
        have hmem : dictMem d pk = false := by
          by_contra hc
          simp only [Bool.not_eq_false] at hc
          exact hnd.1 (mem_keys_of_dictMem d pk hc)
        simp [dictSet, dictMem, dictReplace, dictReplace_of_not_mem _ _ _ hmem]
      · simp only [dictGet, hp, if_neg, not_false_eq_true, if_false] at h
        have hmd : dictMem d k = true := dictMem_of_dictGet _ _ _ h
        have hm : dictMem ((pk, pv) :: d) k = true := by simp [dictMem, hmd]
        have ihr := ih hnd.2 h
        simp only [dictSet, hmd, if_pos] at ihr
        simp [dictSet, hm, dictReplace, hp, ihr]

theorem dictSet_fresh (d : Dict) (k v : String) (h : dictMem d k = false) :
    dictSet d k v = d ++ [(k, v)] := by simp [dictSet, h]

theorem dictMem_false_of_not_mem_keys (d : Dict) (k : String) (h : k ∉ dictKeys d) :
    dictMem d k = false := by
  induction d with
  | nil => rfl
  | cons p d ih =>
      simp only [dictKeys, List.map_cons, List.mem_cons, not_or] at h
      have h1 : ¬ p.1 = k := fun hh => h.1 hh.symm
      simp [dictMem, h1, ih h.2]

theorem dictGet_map_pairs (bs : List String) (f : String → String) (k : String)
    (h : k ∈ bs) : dictGet (bs.map (fun q => (q, f q))) k = some (f k) := by
  induction bs with
  | nil => simp at h
  | cons b bs ih =>
      by_cases hb : b = k
      · subst hb; simp [dictGet]
      · rcases List.mem_cons.mp h with hc | hc
        · exact absurd hc.symm hb
        · simp [dictGet, hb, ih hc]

/-! Lemmas about a single git invocation. -/

theorem runGit_exit (cfg : Config) (v : Nat × Nat) (w : World) (cmd : String)
    (args : List String) : (runGit cfg v w cmd args).exit = (w.exec cmd args).1 := by
  unfold runGit
  cases cfg.sshPrivateKey with
  | none => rfl
  | some key =>
      by_cases hr : cmd ∈ remoteCommands <;> simp [hr]

theorem runGit_stdout (cfg : Config) (v : Nat × Nat) (w : World) (cmd : String)
    (args : List String) : (runGit cfg v w cmd args).stdout = (w.exec cmd args).2 := by
  unfold runGit
  cases cfg.sshPrivateKey with
  | none => rfl
  | some key =>
      by_cases hr : cmd ∈ remoteCommands <;> simp [hr]

theorem runGit_events_nossh (cfg : Config) (v : Nat × Nat) (w : World) (cmd : String)
    (args : List String) (h : cfg.sshPrivateKey = none) :
    (runGit cfg v w cmd args).events = [Event.cmd ⟨[], cmd, args, []⟩] := by
  unfold runGit
  rw [h]

theorem runGit_events_nonremote (cfg : Config) (v : Nat × Nat) (w : World) (cmd : String)
    (args : List String) (h : remoteCommands.contains cmd = false) :
    (runGit cfg v w cmd args).events = [Event.cmd ⟨[], cmd, args, []⟩] := by
  unfold runGit
  cases cfg.sshPrivateKey with
  | none => rfl
  | some key =>
      have h2 : cmd ∉ remoteCommands := by simpa using h
      simp [h2]

/-! Characterizations of the per-branch loop body. -/

theorem processChanges_initial (cfg : Config) (v : Nat × Nat) (w : World)
    (st : PollState) (b n : String) (h : st.lastRev.isEmpty = true) :
    processChanges cfg v w st b n = st := by
  unfold processChanges
  simp [h]

theorem processChanges_logfail (cfg : Config) (v : Nat × Nat) (w : World)
    (st : PollState) (b n : String) (hne : st.lastRev.isEmpty = false)
    (hlog : (w.exec "log" (logArgs st.lastRev n)).1 ≠ 0) :
    processChanges cfg v w st b n =
      { st with events := (st.events ++ (runGit cfg v w "log" (logArgs st.lastRev n)).events)
          ++ [Event.logErr] } := by
  unfold processChanges
  simp only [hne, Bool.false_eq_true, if_false, runGit_exit, ne_eq, hlog,
    not_false_eq_true, if_true, if_pos]

theorem processChanges_logok (cfg : Config) (v : Nat × Nat) (w : World)
    (st : PollState) (b n : String) (hne : st.lastRev.isEmpty = false)
    (hlog : (w.exec "log" (logArgs st.lastRev n)).1 = 0) :
    processChanges cfg v w st b n =
      { lastRev := dictSet st.lastRev b n
        revs := st.revs
        changes := st.changes ++
          (computedRevList cfg st.lastRev b n
            ((w.exec "log" (logArgs st.lastRev n)).2)).map (mkChange cfg w b)
        events := st.events ++ (runGit cfg v w "log" (logArgs st.lastRev n)).events } := by
  unfold processChanges
  simp only [hne, Bool.false_eq_true, if_false, runGit_exit, ne_eq, hlog,
    not_true_eq_false, if_false, runGit_stdout]

theorem processBranch_rpok (cfg : Config) (v : Nat × Nat) (w : World)
    (st : PollState) (b : String)
    (hrp : (w.exec "rev-parse" [trackerBranch cfg.repourl b]).1 = 0) :
    processBranch cfg v w st b =
      processChanges cfg v w
        { st with
          revs := dictSet st.revs b (trimStr (w.exec "rev-parse" [trackerBranch cfg.repourl b]).2)
          events := st.events ++ (runGit cfg v w "rev-parse" [trackerBranch cfg.repourl b]).events }
        b (trimStr (w.exec "rev-parse" [trackerBranch cfg.repourl b]).2) := by
  unfold processBranch
  simp only [runGit_exit, ne_eq, hrp, not_true_eq_false, if_false, runGit_stdout]

theorem processBranch_rpfail (cfg : Config) (v : Nat × Nat) (w : World)
    (st : PollState) (b : String)
    (hrp : (w.exec "rev-parse" [trackerBranch cfg.repourl b]).1 ≠ 0) :
    processBranch cfg v w st b =
      (match dictGet st.lastRev b with
       | some old =>
          { st with
            revs := dictSet st.revs b old
            events := (st.events ++ (runGit cfg v w "rev-parse" [trackerBranch cfg.repourl b]).events)
              ++ [Event.logErr] }
       | none =>
          { st with
            events := (st.events ++ (runGit cfg v w "rev-parse" [trackerBranch cfg.repourl b]).events)
              ++ [Event.logErr] }) := by
  unfold processBranch
  simp only [runGit_exit, ne_eq, hrp, not_false_eq_true, if_true, if_pos]

theorem mkChange_branch (cfg : Config) (w : World) (b r : String) :
    (mkChange cfg w b r).branch = removeHeads b := rfl

/-! Lemmas about the per-branch fold. -/

theorem processBranches_append (cfg : Config) (v : Nat × Nat) (w : World)
    (st : PollState) (l1 l2 : List String) :
    processBranches cfg v w st (l1 ++ l2) =
      processBranches cfg v w (processBranches cfg v w st l1) l2 :=
  List.foldl_append _ _ _ _

theorem processChanges_revs (cfg : Config) (v : Nat × Nat) (w : World)
    (st : PollState) (b n : String) :
    (processChanges cfg v w st b n).revs = st.revs := by
  by_cases he : st.lastRev.isEmpty = true
  · rw [processChanges_initial _ _ _ _ _ _ he]
  · have he2 : st.lastRev.isEmpty = false := by simpa using he
    by_cases hl : (w.exec "log" (logArgs st.lastRev n)).1 = 0
    · rw [processChanges_logok _ _ _ _ _ _ he2 hl]
    · rw [processChanges_logfail _ _ _ _ _ _ he2 hl]

theorem processChanges_lastRevGet_ne (cfg : Config) (v : Nat × Nat) (w : World)
    (st : PollState) (b n x : String) (h : x ≠ b) :
    dictGet (processChanges cfg v w st b n).lastRev x = dictGet st.lastRev x := by
  by_cases he : st.lastRev.isEmpty = true
  · rw [processChanges_initial _ _ _ _ _ _ he]
  · have he2 : st.lastRev.isEmpty = false := by simpa using he
    by_cases hl : (w.exec "log" (logArgs st.lastRev n)).1 = 0
    · rw [processChanges_logok _ _ _ _ _ _ he2 hl]
      exact dictGet_dictSet_ne _ _ _ _ h
    · rw [processChanges_logfail _ _ _ _ _ _ he2 hl]

theorem processChanges_events_mono (cfg : Config) (v : Nat × Nat) (w : World)
    (st : PollState) (b n : String) (e : Event) (h : e ∈ st.events) :
    e ∈ (processChanges cfg v w st b n).events := by
  by_cases he : st.lastRev.isEmpty = true
  · rw [processChanges_initial _ _ _ _ _ _ he]; exact h
  · have he2 : st.lastRev.isEmpty = false := by simpa using he
    by_cases hl : (w.exec "log" (logArgs st.lastRev n)).1 = 0
    · rw [processChanges_logok _ _ _ _ _ _ he2 hl]
      exact List.mem_append_left _ h
    · rw [processChanges_logfail _ _ _ _ _ _ he2 hl]
      exact List.mem_append_left _ (List.mem_append_left _ h)

theorem processChanges_changes_filter (cfg : Config) (v : Nat × Nat) (w : World)
    (st : PollState) (b n x : String) (hb : (removeHeads b == x) = false) :
    ((processChanges cfg v w st b n).changes.filter (fun c => c.branch == x)) =
      st.changes.filter (fun c => c.branch == x) := by
  by_cases he : st.lastRev.isEmpty = true
  · rw [processChanges_initial _ _ _ _ _ _ he]
  · have he2 : st.lastRev.isEmpty = false := by simpa using he
    by_cases hl : (w.exec "log" (logArgs st.lastRev n)).1 = 0
    · rw [processChanges_logok _ _ _ _ _ _ he2 hl]
      simp only [List.filter_append]
      have hmap : ∀ l : List String,
          (l.map (mkChange cfg w b)).filter (fun c => c.branch == x) = [] := by
        intro l
        induction l with
        | nil => rfl
        | cons r l ih => simp [mkChange_branch, hb, ih]
      rw [hmap]
      simp
    · rw [processChanges_logfail _ _ _ _ _ _ he2 hl]

theorem processBranch_revs_ne (cfg : Config) (v : Nat × Nat) (w : World)
    (st : PollState) (b x : String) (h : x ≠ b) :
    dictGet (processBranch cfg v w st b).revs x = dictGet st.revs x := by
  by_cases hrp : (w.exec "rev-parse" [trackerBranch cfg.repourl b]).1 = 0
  · rw [processBranch_rpok _ _ _ _ _ hrp, processChanges_revs]
    exact dictGet_dictSet_ne _ _ _ _ h
  · rw [processBranch_rpfail _ _ _ _ _ hrp]
    cases hd : dictGet st.lastRev b
    · rfl
    · exact dictGet_dictSet_ne _ _ _ _ h

theorem processBranch_lastRevGet_ne (cfg : Config) (v : Nat × Nat) (w : World)
    (st : PollState) (b x : String) (h : x ≠ b) :
    dictGet (processBranch cfg v w st b).lastRev x = dictGet st.lastRev x := by
  by_cases hrp : (w.exec "rev-parse" [trackerBranch cfg.repourl b]).1 = 0
  · rw [processBranch_rpok _ _ _ _ _ hrp]
    exact processChanges_lastRevGet_ne _ _ _ _ _ _ _ h
  · rw [processBranch_rpfail _ _ _ _ _ hrp]
    cases hd : dictGet st.lastRev b <;> rfl

theorem processBranch_events_mono (cfg : Config) (v : Nat × Nat) (w : World)
    (st : PollState) (b : String) (e : Event) (h : e ∈ st.events) :
    e ∈ (processBranch cfg v w st b).events := by
  by_cases hrp : (w.exec "rev-parse" [trackerBranch cfg.repourl b]).1 = 0
  · rw [processBranch_rpok _ _ _ _ _ hrp]
    exact processChanges_events_mono _ _ _ _ _ _ _ (List.mem_append_left _ h)
  · rw [processBranch_rpfail _ _ _ _ _ hrp]
    cases hd : dictGet st.lastRev b <;>
      exact List.mem_append_left _ (List.mem_append_left _ h)

theorem processBranch_changes_filter (cfg : Config) (v : Nat × Nat) (w : World)
    (st : PollState) (b x : String) (hb : (removeHeads b == x) = false) :
    ((processBranch cfg v w st b).changes.filter (fun c => c.branch == x)) =
      st.changes.filter (fun c => c.branch == x) := by
  by_cases hrp : (w.exec "rev-parse" [trackerBranch cfg.repourl b]).1 = 0
  · rw [processBranch_rpok _ _ _ _ _ hrp]
    exact processChanges_changes_filter _ _ _ _ _ _ _ hb
  · rw [processBranch_rpfail _ _ _ _ _ hrp]
    cases hd : dictGet st.lastRev b <;> rfl

theorem processBranch_rp_event (cfg : Config) (v : Nat × Nat) (w : World)
    (st : PollState) (b : String) :
    Event.cmd ⟨[], "rev-parse", [trackerBranch cfg.repourl b], []⟩ ∈
      (processBranch cfg v w st b).events := by
  have hev : (runGit cfg v w "rev-parse" [trackerBranch cfg.repourl b]).events =
      [Event.cmd ⟨[], "rev-parse", [trackerBranch cfg.repourl b], []⟩] :=
    runGit_events_nonremote _ _ _ _ _ rfl
  by_cases hrp : (w.exec "rev-parse" [trackerBranch cfg.repourl b]).1 = 0
  · rw [processBranch_rpok _ _ _ _ _ hrp]
    refine processChanges_events_mono _ _ _ _ _ _ _ ?_
    exact List.mem_append_right _ (by simp [hev])
  · rw [processBranch_rpfail _ _ _ _ _ hrp]
    cases hd : dictGet st.lastRev b <;>
      exact List.mem_append_left _ (List.mem_append_right _ (by simp [hev]))

theorem processBranches_revs_ne (cfg : Config) (v : Nat × Nat) (w : World)
    (st : PollState) (bs : List String) (x : String) (h : x ∉ bs) :
    dictGet (processBranches cfg v w st bs).revs x = dictGet st.revs x := by
  induction bs generalizing st with
  | nil => rfl
  | cons b bs ih =>
      have hx : x ≠ b := fun hh => h (hh ▸ List.mem_cons_self _ _)
      have hxs : x ∉ bs := fun hh => h (List.mem_cons_of_mem _ hh)
      calc dictGet (processBranches cfg v w (processBranch cfg v w st b) bs).revs x
          = dictGet (processBranch cfg v w st b).revs x := ih _ hxs
        _ = dictGet st.revs x := processBranch_revs_ne _ _ _ _ _ _ hx

theorem processBranches_lastRevGet_ne (cfg : Config) (v : Nat × Nat) (w : World)
    (st : PollState) (bs : List String) (x : String) (h : x ∉ bs) :
    dictGet (processBranches cfg v w st bs).lastRev x = dictGet st.lastRev x := by
  induction bs generalizing st with
  | nil => rfl
  | cons b bs ih =>
      have hx : x ≠ b := fun hh => h (hh ▸ List.mem_cons_self _ _)
      have hxs : x ∉ bs := fun hh => h (List.mem_cons_of_mem _ hh)
      calc dictGet (processBranches cfg v w (processBranch cfg v w st b) bs).lastRev x
          = dictGet (processBranch cfg v w st b).lastRev x := ih _ hxs
        _ = dictGet st.lastRev x := processBranch_lastRevGet_ne _ _ _ _ _ _ hx

theorem processBranches_events_mono (cfg : Config) (v : Nat × Nat) (w : World)
    (st : PollState) (bs : List String) (e : Event) (h : e ∈ st.events) :
    e ∈ (processBranches cfg v w st bs).events := by
  induction bs generalizing st with
  | nil => exact h
  | cons b bs ih => exact ih _ (processBranch_events_mono _ _ _ _ _ _ h)

theorem processBranches_changes_filter (cfg : Config) (v : Nat × Nat) (w : World)
    (st : PollState) (bs : List String) (x : String)
    (h : ∀ b ∈ bs, (removeHeads b == x) = false) :
    ((processBranches cfg v w st bs).changes.filter (fun c => c.branch == x)) =
      st.changes.filter (fun c => c.branch == x) := by
  induction bs generalizing st with
  | nil => rfl
  | cons b bs ih =>
      calc ((processBranches cfg v w (processBranch cfg v w st b) bs).changes.filter
              (fun c => c.branch == x))
          = ((processBranch cfg v w st b).changes.filter (fun c => c.branch == x)) :=
            ih _ (fun q hq => h q (List.mem_cons_of_mem _ hq))
        _ = st.changes.filter (fun c => c.branch == x) :=
            processBranch_changes_filter _ _ _ _ _ _ (h b (List.mem_cons_self _ _))

/-! Unfolding a completing poll into the per-branch fold. -/

theorem versionAtLeast_mono (v : Nat × Nat) (b b' : Nat) (h : b' ≤ b)
    (hv : versionAtLeast v 2 b = true) : versionAtLeast v 2 b' = true := by
  simp only [versionAtLeast, Bool.or_eq_true, decide_eq_true_eq] at hv ⊢
  omega

theorem poll_completes (cfg : Config) (w : World) (c0 : Dict) (v : Nat × Nat)
    (hver : parseGitVersion (w.exec "--version" []).2 = some v)
    (hfeat : ¬(cfg.sshPrivateKey.isSome = true ∧ ¬versionAtLeast v 2 3 = true))
    (hinit : (w.exec "init" ["--bare", cfg.workdir]).1 = 0)
    (hls : (w.exec "ls-remote" ["--refs", cfg.repourl]).1 = 0)
    (hfetch : (w.exec "fetch" (fetchArgs cfg w)).1 = 0) :
    poll cfg true c0 w =
      { ok := true
        lastRev := (processBranches cfg v w (pollStart cfg v w c0) (selectedBranches cfg w)).revs
        persisted :=
          some (processBranches cfg v w (pollStart cfg v w c0) (selectedBranches cfg w)).revs
        changes := (processBranches cfg v w (pollStart cfg v w c0) (selectedBranches cfg w)).changes
        events :=
          (processBranches cfg v w (pollStart cfg v w c0) (selectedBranches cfg w)).events } := by
  simp only [poll, hver]
  rw [if_neg hfeat]
  rw [runGit_exit cfg v w "init" ["--bare", cfg.workdir], hinit]
  rw [if_neg (by decide : ¬(0 = 128))]
  rw [if_neg (by decide : ¬(0 ≠ 0))]
  rw [runGit_exit cfg v w "ls-remote" ["--refs", cfg.repourl], hls]
  rw [if_neg (by decide : ¬(0 ≠ 0))]
  rw [if_neg (by simp : ¬¬True)]
  rw [runGit_stdout cfg v w "ls-remote" ["--refs", cfg.repourl]]
  rw [runGit_exit cfg v w "fetch" _]
  have hfe : (w.exec "fetch" (["--progress", cfg.repourl] ++
      (selectBranches cfg.branches
        (parseLsRemote (w.exec "ls-remote" ["--refs", cfg.repourl]).2)).map (fun b =>
        "+" ++ removeHeads b ++ ":" ++ trackerBranch cfg.repourl b))).1 = 0 := hfetch
  rw [hfe]
  rw [if_neg (by decide : ¬(0 ≠ 0))]
  rfl

/-! Claim-specific characterizations of the per-branch fold. -/

theorem isEmpty_false_of_ne_nil {α : Type} (l : List α) (h : l ≠ []) :
    l.isEmpty = false := by
  cases l with
  | nil => exact absurd rfl h
  | cons a l => rfl

theorem dictGet_foldl_dictSet_ne (ps : List String) (f : String → String) (c : Dict)
    (x : String) (h : x ∉ ps) :
    dictGet (ps.foldl (fun d p => dictSet d p (f p)) c) x = dictGet c x := by
  induction ps generalizing c with
  | nil => rfl
  | cons p ps ih =>
      have hx : x ≠ p := fun hh => h (hh ▸ List.mem_cons_self _ _)
      have hxs : x ∉ ps := fun hh => h (List.mem_cons_of_mem _ hh)
      calc dictGet (ps.foldl (fun d p => dictSet d p (f p)) (dictSet c p (f p))) x
          = dictGet (dictSet c p (f p)) x := ih _ hxs
        _ = dictGet c x := dictGet_dictSet_ne _ _ _ _ hx

theorem foldl_dictSet_ne_nil (ps : List String) (f : String → String) (c : Dict)
    (h : c ≠ []) : ps.foldl (fun d p => dictSet d p (f p)) c ≠ [] := by
  induction ps generalizing c with
  | nil => exact h
  | cons p ps ih => exact ih _ (dictSet_ne_nil _ _ _)

theorem foldl_dictSet_of_fresh (bs : List String) (f : String → String) :
    ∀ d : Dict, bs.Nodup → (∀ q ∈ bs, q ∉ dictKeys d) →
    bs.foldl (fun d q => dictSet d q (f q)) d = d ++ bs.map (fun q => (q, f q)) := by
  induction bs with
  | nil => intro d _ _; simp
  | cons b bs ih =>
      intro d hnd hfresh
      have hb : b ∉ dictKeys d := hfresh b (List.mem_cons_self _ _)
      have hset : dictSet d b (f b) = d ++ [(b, f b)] :=
        dictSet_fresh _ _ _ (dictMem_false_of_not_mem_keys _ _ hb)
      have hnd2 := (List.nodup_cons.mp hnd).2
      have hbnot := (List.nodup_cons.mp hnd).1
      have hfresh2 : ∀ q ∈ bs, q ∉ dictKeys (d ++ [(b, f b)]) := by
        intro q hq
        simp only [dictKeys, List.map_append, List.mem_append, List.map_cons,
          List.map_nil, List.mem_singleton, not_or]
        exact ⟨hfresh q (List.mem_cons_of_mem _ hq),
          fun hh => hbnot (hh ▸ hq)⟩
      calc bs.foldl (fun d q => dictSet d q (f q)) (dictSet d b (f b))
          = bs.foldl (fun d q => dictSet d q (f q)) (d ++ [(b, f b)]) := by rw [hset]
        _ = (d ++ [(b, f b)]) ++ bs.map (fun q => (q, f q)) := ih _ hnd2 hfresh2
        _ = d ++ (b, f b) :: bs.map (fun q => (q, f q)) := by simp

theorem computedRevList_empty_same (cfg : Config) (lastRev : Dict) (b n : String)
    (h : dictGet lastRev b = some n) : computedRevList cfg lastRev b n "" = [] := by
  have h0 : splitWs "" = ([] : List String) := rfl
  simp [computedRevList, h0, h]

theorem computedRevList_empty_diff (cfg : Config) (lastRev : Dict) (b n : String)
    (h : dictGet lastRev b ≠ some n) :
    computedRevList cfg lastRev b n "" =
      (if cfg.buildPushesWithNoCommits then [n] else []) := by
  have h0 : splitWs "" = ([] : List String) := rfl
  by_cases hb : cfg.buildPushesWithNoCommits <;> simp [computedRevList, h0, h, hb]

/-- The tip a branch resolves to in world `w`, as the loop computes it. -/
def resolvedTip (cfg : Config) (w : World) (q : String) : String :=
  trimStr (w.exec "rev-parse" [trackerBranch cfg.repourl q]).2

theorem processBranch_ok_ok (cfg : Config) (v : Nat × Nat) (w : World) (st : PollState)
    (b : String)
    (hrp : (w.exec "rev-parse" [trackerBranch cfg.repourl b]).1 = 0)
    (hne : st.lastRev ≠ [])
    (hlog : (w.exec "log" (logArgs st.lastRev (resolvedTip cfg w b))).1 = 0) :
    processBranch cfg v w st b =
      { lastRev := dictSet st.lastRev b (resolvedTip cfg w b)
        revs := dictSet st.revs b (resolvedTip cfg w b)
        changes := st.changes ++
          (computedRevList cfg st.lastRev b (resolvedTip cfg w b)
            ((w.exec "log" (logArgs st.lastRev (resolvedTip cfg w b))).2)).map
            (mkChange cfg w b)
        events := (st.events ++
            (runGit cfg v w "rev-parse" [trackerBranch cfg.repourl b]).events) ++
          (runGit cfg v w "log" (logArgs st.lastRev (resolvedTip cfg w b))).events } := by
  unfold resolvedTip at hlog ⊢
  rw [processBranch_rpok _ _ _ _ _ hrp]
  have h1 : (PollState.mk st.lastRev
      (dictSet st.revs b (trimStr (w.exec "rev-parse" [trackerBranch cfg.repourl b]).2))
      st.changes
      (st.events ++ (runGit cfg v w "rev-parse"
        [trackerBranch cfg.repourl b]).events)).lastRev.isEmpty = false :=
    isEmpty_false_of_ne_nil _ hne
  rw [processChanges_logok _ _ _ _ _ _ h1 hlog]

theorem processBranch_ok_logfail (cfg : Config) (v : Nat × Nat) (w : World)
    (st : PollState) (b : String)
    (hrp : (w.exec "rev-parse" [trackerBranch cfg.repourl b]).1 = 0)
    (hne : st.lastRev ≠ [])
    (hlog : (w.exec "log" (logArgs st.lastRev (resolvedTip cfg w b))).1 ≠ 0) :
    processBranch cfg v w st b =
      { lastRev := st.lastRev
        revs := dictSet st.revs b (resolvedTip cfg w b)
        changes := st.changes
        events := ((st.events ++
            (runGit cfg v w "rev-parse" [trackerBranch cfg.repourl b]).events) ++
          (runGit cfg v w "log" (logArgs st.lastRev (resolvedTip cfg w b))).events) ++
          [Event.logErr] } := by
  unfold resolvedTip at hlog ⊢
  rw [processBranch_rpok _ _ _ _ _ hrp]
  have h1 : (PollState.mk st.lastRev
      (dictSet st.revs b (trimStr (w.exec "rev-parse" [trackerBranch cfg.repourl b]).2))
      st.changes
      (st.events ++ (runGit cfg v w "rev-parse"
        [trackerBranch cfg.repourl b]).events)).lastRev.isEmpty = false :=
    isEmpty_false_of_ne_nil _ hne
  rw [processChanges_logfail _ _ _ _ _ _ h1 hlog]

theorem processBranch_emptyc (cfg : Config) (v : Nat × Nat) (w : World)
    (st : PollState) (b : String) (hlr : st.lastRev = []) :
    (processBranch cfg v w st b).lastRev = [] ∧
    (processBranch cfg v w st b).changes = st.changes ∧
    (processBranch cfg v w st b).revs =
      (let r := w.exec "rev-parse" [trackerBranch cfg.repourl b]
       if r.1 = 0 then dictSet st.revs b (trimStr r.2) else st.revs) := by
  by_cases hrp : (w.exec "rev-parse" [trackerBranch cfg.repourl b]).1 = 0
  · rw [processBranch_rpok _ _ _ _ _ hrp]
    have he : (PollState.mk st.lastRev
        (dictSet st.revs b (trimStr (w.exec "rev-parse" [trackerBranch cfg.repourl b]).2))
        st.changes
        (st.events ++ (runGit cfg v w "rev-parse"
          [trackerBranch cfg.repourl b]).events)).lastRev.isEmpty = true := by
      simp only [hlr]; rfl
    rw [processChanges_initial _ _ _ _ _ _ he]
    exact ⟨hlr, rfl, by simp only [hrp, if_pos]⟩
  · rw [processBranch_rpfail _ _ _ _ _ hrp]
    have hd : dictGet st.lastRev b = none := by rw [hlr]; rfl
    rw [hd]
    exact ⟨hlr, rfl, by simp only [if_neg hrp]⟩

theorem processBranches_all_success (cfg : Config) (v : Nat × Nat) (w : World)
    (ps : List String) :
    ∀ st : PollState, st.lastRev ≠ [] →
    (∀ p ∈ ps, (w.exec "rev-parse" [trackerBranch cfg.repourl p]).1 = 0) →
    (∀ args, (w.exec "log" args).1 = 0) →
    (processBranches cfg v w st ps).lastRev =
      ps.foldl (fun c p => dictSet c p (resolvedTip cfg w p)) st.lastRev := by
  induction ps with
  | nil => intro st _ _ _; rfl
  | cons p ps ih =>
      intro st hne hrp hlog
      have hrpp := hrp p (List.mem_cons_self _ _)
      have step := processBranch_ok_ok cfg v w st p hrpp hne (hlog _)
      have hlr : (processBranch cfg v w st p).lastRev =
          dictSet st.lastRev p (resolvedTip cfg w p) := by rw [step]
      have hne2 : (processBranch cfg v w st p).lastRev ≠ [] := by
        rw [hlr]; exact dictSet_ne_nil _ _ _
      calc (processBranches cfg v w (processBranch cfg v w st p) ps).lastRev
          = ps.foldl (fun c p => dictSet c p (resolvedTip cfg w p))
              (processBranch cfg v w st p).lastRev :=
            ih _ hne2 (fun q hq => hrp q (List.mem_cons_of_mem _ hq)) hlog
        _ = ps.foldl (fun c p => dictSet c p (resolvedTip cfg w p))
              (dictSet st.lastRev p (resolvedTip cfg w p)) := by rw [hlr]

theorem processBranches_all_logfail (cfg : Config) (v : Nat × Nat) (w : World)
    (ps : List String) :
    ∀ st : PollState, st.lastRev ≠ [] →
    (∀ args, (w.exec "log" args).1 ≠ 0) →
    (processBranches cfg v w st ps).lastRev = st.lastRev ∧
    (processBranches cfg v w st ps).changes = st.changes := by
  induction ps with
  | nil => intro st _ _; exact ⟨rfl, rfl⟩
  | cons p ps ih =>
      intro st hne hlog
      have step : (processBranch cfg v w st p).lastRev = st.lastRev ∧
          (processBranch cfg v w st p).changes = st.changes := by
        by_cases hrp : (w.exec "rev-parse" [trackerBranch cfg.repourl p]).1 = 0
        · rw [processBranch_ok_logfail cfg v w st p hrp hne (hlog _)]
          exact ⟨rfl, rfl⟩
        · rw [processBranch_rpfail _ _ _ _ _ hrp]
          cases hd : dictGet st.lastRev p <;> exact ⟨rfl, rfl⟩
      have hne2 : (processBranch cfg v w st p).lastRev ≠ [] := by
        rw [step.1]; exact hne
      obtain ⟨h1, h2⟩ := ih (processBranch cfg v w st p) hne2 hlog
      exact ⟨h1.trans step.1, h2.trans step.2⟩

theorem processBranches_empty_cursor (cfg : Config) (v : Nat × Nat) (w : World)
    (ps : List String) :
    ∀ st : PollState, st.lastRev = [] →
    (processBranches cfg v w st ps).lastRev = [] ∧
    (processBranches cfg v w st ps).changes = st.changes ∧
    (processBranches cfg v w st ps).revs =
      ps.foldl (fun d q =>
        let r := w.exec "rev-parse" [trackerBranch cfg.repourl q]
        if r.1 = 0 then dictSet d q (trimStr r.2) else d) st.revs := by
  induction ps with
  | nil => intro st hlr; exact ⟨hlr, rfl, rfl⟩
  | cons p ps ih =>
      intro st hlr
      have step := processBranch_emptyc cfg v w st p hlr
      obtain ⟨h1, h2, h3⟩ := ih (processBranch cfg v w st p) step.1
      refine ⟨h1, h2.trans step.2.1, ?_⟩
      refine h3.trans ?_
      rw [step.2.2]
      rfl

theorem processBranches_revs_keys (cfg : Config) (v : Nat × Nat) (w : World)
    (ps : List String) :
    ∀ st : PollState, ps.Nodup →
    (∀ q ∈ ps, (w.exec "rev-parse" [trackerBranch cfg.repourl q]).1 = 0) →
    (∀ q ∈ ps, q ∉ dictKeys st.revs) →
    dictKeys (processBranches cfg v w st ps).revs = dictKeys st.revs ++ ps := by
  induction ps with
  | nil =>
      intro st _ _ _
      show dictKeys st.revs = dictKeys st.revs ++ []
      simp
  | cons p ps ih =>
      intro st hnd hrp hfresh
      have hrpp := hrp p (List.mem_cons_self _ _)
      have hpfresh : p ∉ dictKeys st.revs := hfresh p (List.mem_cons_self _ _)
      have hrevs : (processBranch cfg v w st p).revs =
          st.revs ++ [(p, resolvedTip cfg w p)] := by
        rw [processBranch_rpok _ _ _ _ _ hrpp, processChanges_revs]
        exact dictSet_fresh _ _ _ (dictMem_false_of_not_mem_keys _ _ hpfresh)
      have hkeys2 : dictKeys (processBranch cfg v w st p).revs =
          dictKeys st.revs ++ [p] := by
        rw [hrevs]; simp [dictKeys]
      have hfresh2 : ∀ q ∈ ps, q ∉ dictKeys (processBranch cfg v w st p).revs := by
        intro q hq
        rw [hkeys2]
        simp only [List.mem_append, List.mem_singleton, not_or]
        exact ⟨hfresh q (List.mem_cons_of_mem _ hq),
          fun hh => (List.nodup_cons.mp hnd).1 (hh ▸ hq)⟩
      calc dictKeys (processBranches cfg v w (processBranch cfg v w st p) ps).revs
          = dictKeys (processBranch cfg v w st p).revs ++ ps :=
            ih _ (List.nodup_cons.mp hnd).2
              (fun q hq => hrp q (List.mem_cons_of_mem _ hq)) hfresh2
        _ = dictKeys st.revs ++ p :: ps := by rw [hkeys2]; simp

theorem processBranches_identity (cfg : Config) (v : Nat × Nat) (w : World)
    (c0 : Dict) (hnd : (dictKeys c0).Nodup) (hc0 : c0 ≠ []) (ps : List String) :
    ∀ st : PollState, st.lastRev = c0 →
    (∀ q ∈ ps, (w.exec "rev-parse" [trackerBranch cfg.repourl q]).1 = 0) →
    (∀ q ∈ ps, dictGet c0 q = some (resolvedTip cfg w q)) →
    (∀ q ∈ ps, (w.exec "log" (logArgs c0 (resolvedTip cfg w q))).2 = "") →
    (∀ args, (w.exec "log" args).1 = 0) →
    (processBranches cfg v w st ps).lastRev = c0 ∧
    (processBranches cfg v w st ps).changes = st.changes ∧
    (processBranches cfg v w st ps).revs =
      ps.foldl (fun d q => dictSet d q (resolvedTip cfg w q)) st.revs := by
  induction ps with
  | nil => intro st hlr _ _ _ _; exact ⟨hlr, rfl, rfl⟩
  | cons p ps ih =>
      intro st hlr hrp hget hout hlog
      have hrpp := hrp p (List.mem_cons_self _ _)
      have hgetp := hget p (List.mem_cons_self _ _)
      have houtp := hout p (List.mem_cons_self _ _)
      have hne : st.lastRev ≠ [] := by rw [hlr]; exact hc0
      have step := processBranch_ok_ok cfg v w st p hrpp hne (hlog _)
      have hstep : (processBranch cfg v w st p).lastRev = c0 ∧
          (processBranch cfg v w st p).changes = st.changes ∧
          (processBranch cfg v w st p).revs =
            dictSet st.revs p (resolvedTip cfg w p) := by
        rw [step]
        refine ⟨?_, ?_, rfl⟩
        · simp only [hlr]
          exact dictSet_preserve _ _ _ hnd hgetp
        · simp only [hlr, houtp]
          rw [computedRevList_empty_same _ _ _ _ hgetp]
          simp
      obtain ⟨h1, h2, h3⟩ := ih (processBranch cfg v w st p) hstep.1
        (fun q hq => hrp q (List.mem_cons_of_mem _ hq))
        (fun q hq => hget q (List.mem_cons_of_mem _ hq))
        (fun q hq => hout q (List.mem_cons_of_mem _ hq)) hlog
      refine ⟨h1, h2.trans hstep.2.1, ?_⟩
      refine h3.trans ?_
      rw [hstep.2.2]
      rfl

/-! Compositional event-trace properties: any property of event chunks that
holds for the version probe, for every single git invocation, for the
logged-error marker, and is closed under concatenation, holds for the whole
trace of a poll — on every path, aborts and soft failures included. -/

theorem processChanges_events_chunks (P : List Event → Prop) (cfg : Config)
    (v : Nat × Nat) (w : World) (st : PollState) (b n : String)
    (happ : ∀ a c, P a → P c → P (a ++ c))
    (herr : P [Event.logErr])
    (hrunv : ∀ cmd args, P (runGit cfg v w cmd args).events)
    (hst : P st.events) :
    P (processChanges cfg v w st b n).events := by
  by_cases he : st.lastRev.isEmpty = true
  · rw [processChanges_initial _ _ _ _ _ _ he]; exact hst
  · have he2 : st.lastRev.isEmpty = false := by simpa using he
    by_cases hl : (w.exec "log" (logArgs st.lastRev n)).1 = 0
    · rw [processChanges_logok _ _ _ _ _ _ he2 hl]
      exact happ _ _ hst (hrunv _ _)
    · rw [processChanges_logfail _ _ _ _ _ _ he2 hl]
      exact happ _ _ (happ _ _ hst (hrunv _ _)) herr

theorem processBranch_events_chunks (P : List Event → Prop) (cfg : Config)
    (v : Nat × Nat) (w : World) (st : PollState) (b : String)
    (happ : ∀ a c, P a → P c → P (a ++ c))
    (herr : P [Event.logErr])
    (hrunv : ∀ cmd args, P (runGit cfg v w cmd args).events)
    (hst : P st.events) :
    P (processBranch cfg v w st b).events := by
  by_cases hrp : (w.exec "rev-parse" [trackerBranch cfg.repourl b]).1 = 0
  · rw [processBranch_rpok _ _ _ _ _ hrp]
    exact processChanges_events_chunks P _ _ _ _ _ _ happ herr hrunv
      (happ _ _ hst (hrunv _ _))
  · rw [processBranch_rpfail _ _ _ _ _ hrp]
    cases hd : dictGet st.lastRev b <;>
      exact happ _ _ (happ _ _ hst (hrunv _ _)) herr

theorem processBranches_events_chunks (P : List Event → Prop) (cfg : Config)
    (v : Nat × Nat) (w : World) (bs : List String)
    (happ : ∀ a c, P a → P c → P (a ++ c))
    (herr : P [Event.logErr])
    (hrunv : ∀ cmd args, P (runGit cfg v w cmd args).events) :
    ∀ st : PollState, P st.events → P (processBranches cfg v w st bs).events := by
  induction bs with
  | nil => intro st hst; exact hst
  | cons b bs ih =>
      intro st hst
      exact ih _ (processBranch_events_chunks P _ _ _ _ _ happ herr hrunv hst)

theorem poll_events_chunks (P : List Event → Prop) (cfg : Config) (running : Bool)
    (c0 : Dict) (w : World)
    (happ : ∀ a c, P a → P c → P (a ++ c))
    (hver : P [Event.cmd ⟨[], "--version", [], []⟩])
    (herr : P [Event.logErr])
    (hrun : ∀ v cmd args, parseGitVersion (w.exec "--version" []).2 = some v →
      P (runGit cfg v w cmd args).events) :
    P (poll cfg running c0 w).events := by
  cases hv : parseGitVersion (w.exec "--version" []).2 with
  | none => simp only [poll, hv]; exact hver
  | some v =>
      have hrunv : ∀ cmd args, P (runGit cfg v w cmd args).events :=
        fun cmd args => hrun v cmd args hv
      simp only [poll, hv]
      split
      · exact hver
      · split
        · exact happ _ _ hver (hrunv _ _)
        · split
          · exact happ _ _ hver (hrunv _ _)
          · split
            · exact happ _ _ (happ _ _ hver (hrunv _ _)) (hrunv _ _)
            · split
              · exact happ _ _ (happ _ _ hver (hrunv _ _)) (hrunv _ _)
              · split
                · exact happ _ _ (happ _ _ (happ _ _ hver (hrunv _ _)) (hrunv _ _))
                    (hrunv _ _)
                · exact processBranches_events_chunks P _ _ _ _ happ herr hrunv _
                    (happ _ _ (happ _ _ (happ _ _ hver (hrunv _ _)) (hrunv _ _))
                      (hrunv _ _))

theorem netOpenGo_append (a b : List Event) (n : Nat) :
    netOpenGo n (a ++ b) = (match netOpenGo n a with
      | some m => netOpenGo m b
      | none => none) := by
  induction a generalizing n with
  | nil => rfl
  | cons e a ih =>
      cases e with
      | mkPrivDir p m => simpa [netOpenGo] using ih (n + 1)
      | rmPrivDir p =>
          by_cases hn : n = 0
          · simp [netOpenGo, hn]
          · simp [netOpenGo, hn, ih (n - 1)]
      | cmd c => simpa [netOpenGo] using ih n
      | fileWrite p c m => simpa [netOpenGo] using ih n
      | logErr => simpa [netOpenGo] using ih n

theorem netOpen_append (a b : List Event) (ha : netOpen a = some 0)
    (hb : netOpen b = some 0) : netOpen (a ++ b) = some 0 := by
  unfold netOpen at *
  rw [netOpenGo_append, ha]
  exact hb

theorem mkPrivDirCount_append (a b : List Event) :
    mkPrivDirCount (a ++ b) = mkPrivDirCount a + mkPrivDirCount b := by
  simp [mkPrivDirCount, List.filter_append]

theorem remoteCmdCount_append (a b : List Event) :
    remoteCmdCount (a ++ b) = remoteCmdCount a + remoteCmdCount b := by
  simp [remoteCmdCount, List.filter_append]

theorem knownHostsPath_ne_keyPath (wd : String) :
    sshKnownHostsPath wd ≠ sshKeyPath wd := by
  intro h
  have hlen := congrArg (fun s => s.data.length) h
  simp only [sshKnownHostsPath, sshKeyPath, privDirPath] at hlen
  simp [String.data_append] at hlen

theorem processBranches_rp_events (cfg : Config) (v : Nat × Nat) (w : World)
    (bs : List String) :
    ∀ st : PollState, ∀ q ∈ bs,
      Event.cmd ⟨[], "rev-parse", [trackerBranch cfg.repourl q], []⟩ ∈
        (processBranches cfg v w st bs).events := by
  induction bs with
  | nil => intro st q hq; exact absurd hq (List.not_mem_nil q)
  | cons b bs ih =>
      intro st q hq
      rcases List.mem_cons.mp hq with hq | hq
      · subst hq
        exact processBranches_events_mono cfg v w _ bs _
          (processBranch_rp_event cfg v w st q)
      · exact ih _ q hq

theorem runGit_events_remote (cfg : Config) (v : Nat × Nat) (w : World) (cmd : String)
    (args : List String) (key : String) (hkey : cfg.sshPrivateKey = some key)
    (hrem : cmd ∈ remoteCommands) (hv : versionAtLeast v 2 10 = true) :
    (runGit cfg v w cmd args).events =
      [Event.mkPrivDir (privDirPath cfg.workdir) 448,
        Event.fileWrite (sshKeyPath cfg.workdir) (ensureSshKeyNewline key) (some 256)] ++
      (match knownHostsContents cfg with
       | some c => [Event.fileWrite (sshKnownHostsPath cfg.workdir) c none]
       | none => []) ++
      [Event.cmd ⟨expectedSshPre cfg, cmd, args, []⟩,
        Event.rmPrivDir (privDirPath cfg.workdir)] := by
  unfold runGit
  rw [hkey]
  cases hkh : knownHostsContents cfg <;>
    simp [hrem, hv, expectedSshPre, hkh]

theorem runGit_keyWrites (cfg : Config) (v : Nat × Nat) (w : World) (cmd : String)
    (args : List String) (key : String) (hkey : cfg.sshPrivateKey = some key) :
    ∀ p c m, Event.fileWrite p c m ∈ (runGit cfg v w cmd args).events →
      p = sshKeyPath cfg.workdir → c = ensureSshKeyNewline key ∧ m = some 256 := by
  unfold runGit
  rw [hkey]
  by_cases hrem : cmd ∈ remoteCommands
  · have hcT : remoteCommands.contains cmd = true := by simpa using hrem
    simp only [hcT, if_true, if_pos]
    intro p c m hm hp
    cases hkh : knownHostsContents cfg <;> rw [hkh] at hm <;> simp at hm
    · exact ⟨hm.2.1, hm.2.2⟩
    · rcases hm with ⟨h1, h2, h3⟩ | ⟨h1, h2, h3⟩
      · exact ⟨h2, h3⟩
      · exact absurd (hp ▸ h1.symm) (knownHostsPath_ne_keyPath cfg.workdir)
  · have hcF : remoteCommands.contains cmd = false := by simpa using hrem
    simp only [hcF, Bool.false_eq_true, if_false]
    intro p c m hm
    simp at hm

/-- C8: with an SSH private key configured and git ≥ 2.10, every
remote-touching git invocation (`ls-remote`, `fetch`) carries the
`-c core.sshCommand=…` decoration pointing into the private scratch
directory under the workdir, the scratch directory (mode 0700, key file
mode 0400) is created once per such invocation and its removals are well
nested with none outstanding when `poll` returns — also on failure paths
such as a failing fetch. -/
theorem C8_ssh_decoration_lifecycle (cfg : Config) (w : World) (c0 : Dict)
    (running : Bool) (key : String) (v : Nat × Nat)
    (hkey : cfg.sshPrivateKey = some key)
    (hver : parseGitVersion (w.exec "--version" []).2 = some v)
    (hv : versionAtLeast v 2 10 = true) :
    (∀ gc : GitCmd, Event.cmd gc ∈ (poll cfg running c0 w).events →
      gc.cmd ∈ remoteCommands → gc.pre = expectedSshPre cfg ∧ gc.env = []) ∧
    netOpen (poll cfg running c0 w).events = some 0 ∧
    mkPrivDirCount (poll cfg running c0 w).events =
      remoteCmdCount (poll cfg running c0 w).events ∧
    (∀ p m, Event.mkPrivDir p m ∈ (poll cfg running c0 w).events →
      p = privDirPath cfg.workdir ∧ m = 448) ∧
    (∀ p c m, Event.fileWrite p c m ∈ (poll cfg running c0 w).events →
      p = sshKeyPath cfg.workdir → c = ensureSshKeyNewline key ∧ m = some 256) := by
  refine poll_events_chunks (fun l =>
      (∀ gc : GitCmd, Event.cmd gc ∈ l → gc.cmd ∈ remoteCommands →
        gc.pre = expectedSshPre cfg ∧ gc.env = []) ∧
      netOpen l = some 0 ∧
      mkPrivDirCount l = remoteCmdCount l ∧
      (∀ p m, Event.mkPrivDir p m ∈ l → p = privDirPath cfg.workdir ∧ m = 448) ∧
      (∀ p c m, Event.fileWrite p c m ∈ l → p = sshKeyPath cfg.workdir →
        c = ensureSshKeyNewline key ∧ m = some 256))
    cfg running c0 w ?_ ?_ ?_ ?_
  · intro a c ha hc
    refine ⟨?_, netOpen_append a c ha.2.1 hc.2.1, ?_, ?_, ?_⟩
    · intro gc hgc hrem
      rcases List.mem_append.mp hgc with h | h
      · exact ha.1 gc h hrem
      · exact hc.1 gc h hrem
    · rw [mkPrivDirCount_append, remoteCmdCount_append, ha.2.2.1, hc.2.2.1]
    · intro p m hm
      rcases List.mem_append.mp hm with h | h
      · exact ha.2.2.2.1 p m h
      · exact hc.2.2.2.1 p m h
    · intro p cc m hm hp
      rcases List.mem_append.mp hm with h | h
      · exact ha.2.2.2.2 p cc m h hp
      · exact hc.2.2.2.2 p cc m h hp
  · refine ⟨?_, rfl, rfl, ?_, ?_⟩
    · intro gc hgc hrem
      rw [List.mem_singleton] at hgc
      cases hgc
      simp [remoteCommands] at hrem
    · intro p m hm
      simp at hm
    · intro p cc m hm
      simp at hm
  · refine ⟨?_, rfl, rfl, ?_, ?_⟩
    · intro gc hgc hrem
      simp at hgc
    · intro p m hm
      simp at hm
    · intro p cc m hm
      simp at hm
  · intro v2 cmd args hv2
    have hveq : v2 = v := by
      rw [hver] at hv2
      exact ((Option.some.injEq _ _).mp hv2).symm
    rw [hveq]
    by_cases hrem : cmd ∈ remoteCommands
    · have hcT : remoteCommands.contains cmd = true := by simpa using hrem
      refine ⟨?_, ?_, ?_, ?_, runGit_keyWrites cfg v w cmd args key hkey⟩
      · rw [runGit_events_remote cfg v w cmd args key hkey hrem hv]
        intro gc hgc hrem2
        cases hkh : knownHostsContents cfg <;> rw [hkh] at hgc <;> simp at hgc <;>
          (subst hgc; exact ⟨rfl, rfl⟩)
      · rw [runGit_events_remote cfg v w cmd args key hkey hrem hv]
        cases hkh : knownHostsContents cfg <;> rfl
      · rw [runGit_events_remote cfg v w cmd args key hkey hrem hv]
        cases hkh : knownHostsContents cfg <;>
          simp [mkPrivDirCount, remoteCmdCount, hcT, hrem]
      · rw [runGit_events_remote cfg v w cmd args key hkey hrem hv]
        intro p m hm
        cases hkh : knownHostsContents cfg <;> rw [hkh] at hm <;> simp at hm <;>
          exact ⟨hm.1, hm.2⟩
    · have hcF : remoteCommands.contains cmd = false := by simpa using hrem
      rw [runGit_events_nonremote cfg v w cmd args hcF]
      refine ⟨?_, rfl, ?_, ?_, ?_⟩
      · intro gc hgc hrem2
        rw [List.mem_singleton] at hgc
        cases hgc
        exact absurd hrem2 hrem
      · simp [mkPrivDirCount, remoteCmdCount, hcF, hrem]
      · intro p m hm
        simp at hm
      · intro p cc m hm
        simp at hm

/-- C8 witness: the `test_poll_failFetch_git_2_10` world — git 2.10 with an
SSH key and a failing fetch: the poll aborts with an error, yet the trace
shows decorated remote commands and a balanced scratch-directory
lifecycle. -/
theorem C8_ssh_decoration_witness :
    cfgSsh.sshPrivateKey = some "ssh-key" ∧
    versionAtLeast (2, 10) 2 10 = true ∧
    (poll cfgSsh true [] wSshFailFetch).ok = false ∧
    netOpen (poll cfgSsh true [] wSshFailFetch).events = some 0 ∧
    mkPrivDirCount (poll cfgSsh true [] wSshFailFetch).events =
      remoteCmdCount (poll cfgSsh true [] wSshFailFetch).events ∧
    (∀ gc : GitCmd, Event.cmd gc ∈ (poll cfgSsh true [] wSshFailFetch).events →
      gc.cmd ∈ remoteCommands → gc.pre = expectedSshPre cfgSsh ∧ gc.env = []) :=
  ⟨rfl, by decide, by decide,
    (C8_ssh_decoration_lifecycle cfgSsh wSshFailFetch [] true "ssh-key" (2, 10)
      rfl rfl (by decide)).2.1,
    (C8_ssh_decoration_lifecycle cfgSsh wSshFailFetch [] true "ssh-key" (2, 10)
      rfl rfl (by decide)).2.2.1,
    (C8_ssh_decoration_lifecycle cfgSsh wSshFailFetch [] true "ssh-key" (2, 10)
      rfl rfl (by decide)).1⟩

/-- C10: every write of the credential file `<workdir>/.buildbot-ssh@@@/ssh-key`
during a poll carries mode 0400 and the configured key passed through
`ensureSshKeyNewline`, which appends a newline exactly when the key does not
already end in one and leaves an already newline-terminated key unchanged. -/
theorem C10_ssh_key_newline (cfg : Config) (w : World) (c0 : Dict)
    (running : Bool) (key : String) (hkey : cfg.sshPrivateKey = some key) :
    (∀ p c m, Event.fileWrite p c m ∈ (poll cfg running c0 w).events →
      p = sshKeyPath cfg.workdir → c = ensureSshKeyNewline key ∧ m = some 256) ∧
    (∀ k : String, (endsWithNewline k = false → ensureSshKeyNewline k = k ++ "\n") ∧
      (endsWithNewline k = true → ensureSshKeyNewline k = k)) := by
  constructor
  · refine poll_events_chunks (fun l =>
        ∀ p c m, Event.fileWrite p c m ∈ l → p = sshKeyPath cfg.workdir →
          c = ensureSshKeyNewline key ∧ m = some 256)
      cfg running c0 w ?_ ?_ ?_ ?_
    · intro a c ha hc p cc m hm hp
      rcases List.mem_append.mp hm with h | h
      · exact ha p cc m h hp
      · exact hc p cc m h hp
    · intro p cc m hm
      simp at hm
    · intro p cc m hm
      simp at hm
    · intro v cmd args _
      exact runGit_keyWrites cfg v w cmd args key hkey
  · intro k
    constructor <;> intro h <;> simp [ensureSshKeyNewline, h]

/-- C10 witness: the ssh worlds of the tests — the poller configured with
key `"ssh-key"` writes `"ssh-key\n"` (mode 0400), and `ensureSshKeyNewline`
leaves `"ssh-key\n"` unchanged. -/
theorem C10_ssh_key_newline_witness :
    cfgSsh.sshPrivateKey = some "ssh-key" ∧
    ensureSshKeyNewline "ssh-key" = "ssh-key\n" ∧
    ensureSshKeyNewline "ssh-key\n" = "ssh-key\n" ∧
    (∀ p c m, Event.fileWrite p c m ∈ (poll cfgSsh true [] wSshFailFetch).events →
      p = sshKeyPath cfgSsh.workdir → c = ensureSshKeyNewline "ssh-key" ∧
        m = some 256) :=
  ⟨rfl, by decide, by decide,
    (C10_ssh_key_newline cfgSsh wSshFailFetch [] true "ssh-key" rfl).1⟩

/-- C9: the commit files extractor decodes the output of
`git log --name-only --no-walk --format=%n <sha> --` by unquoting git's
C-quoted octal escapes, preserving embedded spaces and dropping blank lines:
the scripted output `\n\nfile1\nfile2\n"\146ile_octal"\nfile space` yields
exactly `["file1", "file2", "file_octal", "file space"]`, and empty output
yields the empty list without raising. -/
theorem C9_commit_files_decoding :
    getCommitFiles wFilesOctal dummyRevStr =
      some ["file1", "file2", "file_octal", "file space"] ∧
    getCommitFiles wFilesEmpty dummyRevStr = some [] := ⟨rfl, rfl⟩

/-- C1 counterexample: in the `test_poll_multipleBranches` scenario (cursor
`{master: fa3a…, release: bf0b…}`, both branches advancing) the poll issues
exactly one revision-list command for release's new tip `9118…`, and its
exclude arguments are `^4423… ^bf0b…` — the cursor as already updated by the
earlier `master` branch — not the claim's snapshot-based, new-tip-free
prediction `^bf0b… ^fa3a…`. -/
theorem C1_excludes_counterexample :
    (poll cfgMulti true lastRevMulti wMulti).events.filterMap (logCmdArgsFor shaR9118) =
      [["--ignore-missing", "--format=%H", shaR9118,
        "^" ++ shaM4423, "^" ++ shaBf0b, "--"]] ∧
    ["--ignore-missing", "--format=%H", shaR9118,
        "^" ++ shaM4423, "^" ++ shaBf0b, "--"] ≠
      ["--ignore-missing", "--format=%H", shaR9118] ++
        specClaimedExcludes lastRevMulti shaR9118 ++ ["--"] :=
  ⟨by decide, by decide⟩

/-- C1 (amended): for every poll and every polled branch reached with a
non-empty cursor, the revision-list command issued for that branch excludes
`^<sha>` for every value of the cursor *as it stands when the branch is
processed* — the entries of branches processed earlier in the same poll
already advanced to their new tips — sorted lexicographically, without
deduplicating against or removing the branch's own new tip. -/
theorem C1_excludes_amended (cfg : Config) (w : World) (c0 : Dict) (v : Nat × Nat)
    (pre post : List String) (b : String)
    (hver : parseGitVersion (w.exec "--version" []).2 = some v)
    (hssh : cfg.sshPrivateKey = none)
    (hinit : (w.exec "init" ["--bare", cfg.workdir]).1 = 0)
    (hls : (w.exec "ls-remote" ["--refs", cfg.repourl]).1 = 0)
    (hsel : selectedBranches cfg w = pre ++ b :: post)
    (hfetch : (w.exec "fetch" (fetchArgs cfg w)).1 = 0)
    (hc0 : c0 ≠ [])
    (hpre : ∀ p ∈ pre, (w.exec "rev-parse" [trackerBranch cfg.repourl p]).1 = 0)
    (hlog : ∀ args, (w.exec "log" args).1 = 0)
    (hrpb : (w.exec "rev-parse" [trackerBranch cfg.repourl b]).1 = 0) :
    Event.cmd ⟨[], "log",
      ["--ignore-missing", "--format=%H", resolvedTip cfg w b] ++
        (sortStrings (dictValues
          (pre.foldl (fun c p => dictSet c p (resolvedTip cfg w p)) c0))).map
          (fun r => "^" ++ r) ++ ["--"], []⟩ ∈ (poll cfg true c0 w).events := by
  have hfeat : ¬(cfg.sshPrivateKey.isSome = true ∧ ¬versionAtLeast v 2 3 = true) := by
    simp [hssh]
  rw [poll_completes cfg w c0 v hver hfeat hinit hls hfetch, hsel,
    processBranches_append]
  have hlrPre : (processBranches cfg v w (pollStart cfg v w c0) pre).lastRev =
      pre.foldl (fun c p => dictSet c p (resolvedTip cfg w p)) c0 :=
    processBranches_all_success cfg v w pre (pollStart cfg v w c0) hc0 hpre hlog
  have hPreNe : (processBranches cfg v w (pollStart cfg v w c0) pre).lastRev ≠ [] := by
    rw [hlrPre]
    exact foldl_dictSet_ne_nil _ _ _ hc0
  have step := processBranch_ok_ok cfg v w
    (processBranches cfg v w (pollStart cfg v w c0) pre) b hrpb hPreNe (hlog _)
  have hmem : Event.cmd ⟨[], "log",
      logArgs (pre.foldl (fun c p => dictSet c p (resolvedTip cfg w p)) c0)
        (resolvedTip cfg w b), []⟩ ∈
      (processBranch cfg v w (processBranches cfg v w (pollStart cfg v w c0) pre) b).events := by
    rw [step]
    refine List.mem_append_right _ ?_
    rw [← hlrPre, runGit_events_nonremote cfg v w "log" _ rfl]
    exact List.mem_singleton.mpr rfl
  exact processBranches_events_mono cfg v w _ post _ hmem

/-- C1 witness: the amended statement instantiated on the
`test_poll_multipleBranches` world, where the release branch's excludes are
`^4423… ^bf0b…`. -/
theorem C1_excludes_witness :
    selectedBranches cfgMulti wMulti = ["master"] ++ "release" :: [] ∧
    lastRevMulti ≠ [] ∧
    Event.cmd ⟨[], "log",
      ["--ignore-missing", "--format=%H", resolvedTip cfgMulti wMulti "release"] ++
        (sortStrings (dictValues
          (["master"].foldl (fun c p => dictSet c p (resolvedTip cfgMulti wMulti p))
            lastRevMulti))).map (fun r => "^" ++ r) ++ ["--"], []⟩ ∈
      (poll cfgMulti true lastRevMulti wMulti).events :=
  ⟨by decide, by decide,
    C1_excludes_amended cfgMulti wMulti lastRevMulti (1, 7) ["master"] [] "release"
      rfl rfl rfl rfl (by decide) rfl (by decide) (by decide) (fun _ => rfl)
      (by decide)⟩

/-- C2 counterexample: in the
`test_poll_multipleBranches_buildPushesWithNoCommits_true_not_tip` scenario
the polled branch `release` has no cursor entry at the start of the poll
(only `master` does), yet the poll emits a change record for it. -/
theorem C2_initial_branch_counterexample :
    dictGet lastRevNotTip "release" = none ∧
    (poll cfgNotTip true lastRevNotTip wNotTip).changes.map
        (fun c => (c.branch, c.revision)) = [("release", shaM4423)] :=
  ⟨rfl, by decide⟩

/-- C2 (amended): "initial" means the whole cursor is empty, not that the
branch's key is absent: a poll that starts with an empty cursor emits no
change records at all and only records each polled branch's newly resolved
tip in the cursor (in memory and as persisted). -/
theorem C2_initial_poll_amended (cfg : Config) (w : World) (v : Nat × Nat)
    (hver : parseGitVersion (w.exec "--version" []).2 = some v)
    (hssh : cfg.sshPrivateKey = none)
    (hinit : (w.exec "init" ["--bare", cfg.workdir]).1 = 0)
    (hls : (w.exec "ls-remote" ["--refs", cfg.repourl]).1 = 0)
    (hfetch : (w.exec "fetch" (fetchArgs cfg w)).1 = 0) :
    (poll cfg true [] w).ok = true ∧
    (poll cfg true [] w).changes = [] ∧
    (poll cfg true [] w).lastRev = resolvedTips cfg w (selectedBranches cfg w) ∧
    (poll cfg true [] w).persisted =
      some (resolvedTips cfg w (selectedBranches cfg w)) := by
  have hfeat : ¬(cfg.sshPrivateKey.isSome = true ∧ ¬versionAtLeast v 2 3 = true) := by
    simp [hssh]
  rw [poll_completes cfg w [] v hver hfeat hinit hls hfetch]
  obtain ⟨h1, h2, h3⟩ := processBranches_empty_cursor cfg v w (selectedBranches cfg w)
    (pollStart cfg v w []) rfl
  have h2b : (processBranches cfg v w (pollStart cfg v w [])
      (selectedBranches cfg w)).changes = [] := h2
  have h3b : (processBranches cfg v w (pollStart cfg v w [])
      (selectedBranches cfg w)).revs = resolvedTips cfg w (selectedBranches cfg w) := h3
  exact ⟨rfl, h2b, h3b, by rw [h3b]⟩

/-- C3: for a polled branch with an old cursor entry, an empty computed
revision list and a changed tip, the cursor entry advances to the new tip;
no change is emitted when `buildPushesWithNoCommits` is false, and exactly
one change for the new tip on that branch is synthesized when it is true. -/
theorem C3_empty_revlist_pushes (cfg : Config) (w : World) (c0 : Dict)
    (v : Nat × Nat) (pre post : List String) (b old : String)
    (hver : parseGitVersion (w.exec "--version" []).2 = some v)
    (hssh : cfg.sshPrivateKey = none)
    (hinit : (w.exec "init" ["--bare", cfg.workdir]).1 = 0)
    (hls : (w.exec "ls-remote" ["--refs", cfg.repourl]).1 = 0)
    (hsel : selectedBranches cfg w = pre ++ b :: post)
    (hfetch : (w.exec "fetch" (fetchArgs cfg w)).1 = 0)
    (hnodup : ((pre ++ b :: post).map removeHeads).Nodup)
    (hold : dictGet c0 b = some old)
    (hneq : old ≠ resolvedTip cfg w b)
    (hpre : ∀ p ∈ pre, (w.exec "rev-parse" [trackerBranch cfg.repourl p]).1 = 0)
    (hlog : ∀ args, (w.exec "log" args).1 = 0)
    (hrpb : (w.exec "rev-parse" [trackerBranch cfg.repourl b]).1 = 0)
    (hbout : (w.exec "log" (logArgs
      (pre.foldl (fun c p => dictSet c p (resolvedTip cfg w p)) c0)
      (resolvedTip cfg w b))).2 = "") :
    (poll cfg true c0 w).ok = true ∧
    dictGet (poll cfg true c0 w).lastRev b = some (resolvedTip cfg w b) ∧
    (poll cfg true c0 w).changes.filter (fun c => c.branch == removeHeads b) =
      (if cfg.buildPushesWithNoCommits then [mkChange cfg w b (resolvedTip cfg w b)]
       else []) := by
  have hc0 : c0 ≠ [] := by
    intro hnil
    rw [hnil] at hold
    exact Option.noConfusion hold
  have hnd : (pre ++ b :: post).Nodup := hnodup.of_map
  have hbpre : b ∉ pre := by
    intro hb
    rcases List.nodup_append.mp hnd with ⟨_, _, hdisj⟩
    exact hdisj hb (List.mem_cons_self _ _)
  have hbpost : b ∉ post := by
    rcases List.nodup_append.mp hnd with ⟨_, hnd2, _⟩
    exact (List.nodup_cons.mp hnd2).1
  have hrhpost : ∀ q ∈ post, (removeHeads q == removeHeads b) = false := by
    intro q hq
    rw [List.map_append, List.map_cons] at hnodup
    rcases List.nodup_append.mp hnodup with ⟨_, hnd2, _⟩
    have hbn : removeHeads b ∉ post.map removeHeads := (List.nodup_cons.mp hnd2).1
    refine beq_eq_false_iff_ne.mpr ?_
    intro hh
    exact hbn (hh ▸ List.mem_map_of_mem removeHeads hq)
  have hrhpre : ∀ q ∈ pre, (removeHeads q == removeHeads b) = false := by
    intro q hq
    rw [List.map_append, List.map_cons] at hnodup
    rcases List.nodup_append.mp hnodup with ⟨_, _, hdisj⟩
    refine beq_eq_false_iff_ne.mpr ?_
    intro hh
    exact hdisj (List.mem_map_of_mem removeHeads hq)
      (hh ▸ List.mem_cons_self _ _)
  have hfeat : ¬(cfg.sshPrivateKey.isSome = true ∧ ¬versionAtLeast v 2 3 = true) := by
    simp [hssh]
  have hpoll := poll_completes cfg w c0 v hver hfeat hinit hls hfetch
  have hsplit : processBranches cfg v w (pollStart cfg v w c0) (selectedBranches cfg w) =
      processBranches cfg v w
        (processBranch cfg v w (processBranches cfg v w (pollStart cfg v w c0) pre) b)
        post := by
    rw [hsel, processBranches_append]
    rfl
  have hlrPre : (processBranches cfg v w (pollStart cfg v w c0) pre).lastRev =
      pre.foldl (fun c p => dictSet c p (resolvedTip cfg w p)) c0 :=
    processBranches_all_success cfg v w pre (pollStart cfg v w c0) hc0 hpre hlog
  have hPreNe : (processBranches cfg v w (pollStart cfg v w c0) pre).lastRev ≠ [] := by
    rw [hlrPre]
    exact foldl_dictSet_ne_nil _ _ _ hc0
  have step := processBranch_ok_ok cfg v w
    (processBranches cfg v w (pollStart cfg v w c0) pre) b hrpb hPreNe (hlog _)
  have hgetPre : dictGet (processBranches cfg v w (pollStart cfg v w c0) pre).lastRev b =
      some old := by
    rw [hlrPre, dictGet_foldl_dictSet_ne pre _ c0 b hbpre]
    exact hold
  have hgetNe : dictGet (processBranches cfg v w (pollStart cfg v w c0) pre).lastRev b ≠
      some (resolvedTip cfg w b) := by
    rw [hgetPre]
    intro hh
    exact hneq (Option.some.injEq _ _ ▸ hh)
  have hrevs_step : dictGet
      (processBranch cfg v w (processBranches cfg v w (pollStart cfg v w c0) pre) b).revs
      b = some (resolvedTip cfg w b) := by
    rw [step]
    exact dictGet_dictSet_self _ _ _
  have hchg_step : (processBranch cfg v w
      (processBranches cfg v w (pollStart cfg v w c0) pre) b).changes =
      (processBranches cfg v w (pollStart cfg v w c0) pre).changes ++
        (if cfg.buildPushesWithNoCommits then [mkChange cfg w b (resolvedTip cfg w b)]
         else []) := by
    rw [step]
    have hout2 : (w.exec "log" (logArgs
        (processBranches cfg v w (pollStart cfg v w c0) pre).lastRev
        (resolvedTip cfg w b))).2 = "" := by
      rw [hlrPre]
      exact hbout
    rw [hout2, computedRevList_empty_diff _ _ _ _ hgetNe]
    by_cases hb : cfg.buildPushesWithNoCommits <;> simp [hb]
  refine ⟨?_, ?_, ?_⟩
  · rw [hpoll]
  · rw [hpoll]
    show dictGet (processBranches cfg v w (pollStart cfg v w c0)
      (selectedBranches cfg w)).revs b = some (resolvedTip cfg w b)
    rw [hsplit, processBranches_revs_ne cfg v w _ post b hbpost]
    exact hrevs_step
  · rw [hpoll]
    show ((processBranches cfg v w (pollStart cfg v w c0)
        (selectedBranches cfg w)).changes.filter
        (fun c => c.branch == removeHeads b)) = _
    rw [hsplit, processBranches_changes_filter cfg v w _ post (removeHeads b) hrhpost,
      hchg_step, List.filter_append,
      processBranches_changes_filter cfg v w _ pre (removeHeads b) hrhpre]
    have hst0 : ((pollStart cfg v w c0).changes.filter
        (fun c => c.branch == removeHeads b)) = [] := rfl
    rw [hst0]
    by_cases hb : cfg.buildPushesWithNoCommits <;> simp [hb, mkChange_branch]

/-- C3 witness: the
`test_poll_multipleBranches_buildPushesWithNoCommits_true_fast_forward`
world — `release` fast-forwarded to `master`'s sha with an empty revision
list — emits exactly one synthesized change and advances the cursor. -/
theorem C3_empty_revlist_witness :
    dictGet lastRevFastForward "release" = some sha0ba9 ∧
    sha0ba9 ≠ resolvedTip cfgFastForward wFastForward "release" ∧
    dictGet (poll cfgFastForward true lastRevFastForward wFastForward).lastRev "release" =
      some (resolvedTip cfgFastForward wFastForward "release") ∧
    (poll cfgFastForward true lastRevFastForward wFastForward).changes.filter
        (fun c => c.branch == removeHeads "release") =
      [mkChange cfgFastForward wFastForward "release"
        (resolvedTip cfgFastForward wFastForward "release")] :=
  ⟨by decide, by decide,
    (C3_empty_revlist_pushes cfgFastForward wFastForward lastRevFastForward (1, 7)
      [] [] "release" sha0ba9 rfl rfl rfl rfl (by decide) rfl (by decide) (by decide)
      (by decide) (fun p hp => absurd hp (List.not_mem_nil p)) (fun _ => rfl) (by decide) (by decide)).2.1,
    by
      have h := (C3_empty_revlist_pushes cfgFastForward wFastForward lastRevFastForward
        (1, 7) [] [] "release" sha0ba9 rfl rfl rfl rfl (by decide) rfl (by decide)
        (by decide) (by decide) (fun p hp => absurd hp (List.not_mem_nil p))
        (fun _ => rfl) (by decide) (by decide)).2.2
      rwa [if_pos (by decide)] at h⟩

/-- C4: after a completing poll, the cursor — in memory and as the persisted
value — holds exactly the branch keys polled this cycle, in order; entries
for branches no longer polled, for example after the configured `branches`
changed, are dropped. -/
theorem C4_cursor_keys_polled (cfg : Config) (w : World) (c0 : Dict) (v : Nat × Nat)
    (hver : parseGitVersion (w.exec "--version" []).2 = some v)
    (hssh : cfg.sshPrivateKey = none)
    (hinit : (w.exec "init" ["--bare", cfg.workdir]).1 = 0)
    (hls : (w.exec "ls-remote" ["--refs", cfg.repourl]).1 = 0)
    (hfetch : (w.exec "fetch" (fetchArgs cfg w)).1 = 0)
    (hnd : (selectedBranches cfg w).Nodup)
    (hrp : ∀ q ∈ selectedBranches cfg w,
      (w.exec "rev-parse" [trackerBranch cfg.repourl q]).1 = 0) :
    (poll cfg true c0 w).ok = true ∧
    dictKeys (poll cfg true c0 w).lastRev = selectedBranches cfg w ∧
    (poll cfg true c0 w).persisted = some (poll cfg true c0 w).lastRev := by
  have hfeat : ¬(cfg.sshPrivateKey.isSome = true ∧ ¬versionAtLeast v 2 3 = true) := by
    simp [hssh]
  have hpoll := poll_completes cfg w c0 v hver hfeat hinit hls hfetch
  have hkeys : dictKeys (processBranches cfg v w (pollStart cfg v w c0)
      (selectedBranches cfg w)).revs = selectedBranches cfg w := by
    have h := processBranches_revs_keys cfg v w (selectedBranches cfg w)
      (pollStart cfg v w c0) hnd hrp
      (fun q _ => List.not_mem_nil q)
    simpa using h
  exact ⟨by rw [hpoll], by rw [hpoll]; exact hkeys, by rw [hpoll]⟩

/-- C4 witness: the `test_poll_branchFilter` world — the cursor previously
held `master` and `refs/pull/410/head`, the predicate selects only
`refs/pull/410/head`, and after the poll the cursor holds exactly that
key. -/
theorem C4_cursor_keys_witness :
    selectedBranches cfgBranchFilter wBranchFilter = ["refs/pull/410/head"] ∧
    dictKeys lastRevBranchFilter = ["master", "refs/pull/410/head"] ∧
    dictKeys (poll cfgBranchFilter true lastRevBranchFilter wBranchFilter).lastRev =
      ["refs/pull/410/head"] ∧
    (poll cfgBranchFilter true lastRevBranchFilter wBranchFilter).persisted =
      some (poll cfgBranchFilter true lastRevBranchFilter wBranchFilter).lastRev :=
  ⟨by decide, by decide,
    ((C4_cursor_keys_polled cfgBranchFilter wBranchFilter lastRevBranchFilter (1, 7)
      rfl rfl rfl rfl rfl (by decide) (by decide)).2.1).trans (by decide),
    (C4_cursor_keys_polled cfgBranchFilter wBranchFilter lastRevBranchFilter (1, 7)
      rfl rfl rfl rfl rfl (by decide) (by decide)).2.2⟩

/-- C5: a polled branch whose revision-list command exits non-zero does not
abort the poll — the error is logged, no change records are emitted, and the
branch's cursor entry IS advanced to the newly resolved tip. -/
theorem C5_log_failure_soft (cfg : Config) (w : World) (c0 : Dict) (v : Nat × Nat)
    (pre post : List String) (b : String)
    (hver : parseGitVersion (w.exec "--version" []).2 = some v)
    (hssh : cfg.sshPrivateKey = none)
    (hinit : (w.exec "init" ["--bare", cfg.workdir]).1 = 0)
    (hls : (w.exec "ls-remote" ["--refs", cfg.repourl]).1 = 0)
    (hsel : selectedBranches cfg w = pre ++ b :: post)
    (hfetch : (w.exec "fetch" (fetchArgs cfg w)).1 = 0)
    (hc0 : c0 ≠ [])
    (hbpost : b ∉ post)
    (hlogfail : ∀ args, (w.exec "log" args).1 ≠ 0)
    (hrpb : (w.exec "rev-parse" [trackerBranch cfg.repourl b]).1 = 0) :
    (poll cfg true c0 w).ok = true ∧
    (poll cfg true c0 w).changes = [] ∧
    dictGet (poll cfg true c0 w).lastRev b = some (resolvedTip cfg w b) ∧
    Event.logErr ∈ (poll cfg true c0 w).events := by
  have hfeat : ¬(cfg.sshPrivateKey.isSome = true ∧ ¬versionAtLeast v 2 3 = true) := by
    simp [hssh]
  have hpoll := poll_completes cfg w c0 v hver hfeat hinit hls hfetch
  have hsplit : processBranches cfg v w (pollStart cfg v w c0) (selectedBranches cfg w) =
      processBranches cfg v w
        (processBranch cfg v w (processBranches cfg v w (pollStart cfg v w c0) pre) b)
        post := by
    rw [hsel, processBranches_append]
    rfl
  have hchgAll : (processBranches cfg v w (pollStart cfg v w c0)
      (selectedBranches cfg w)).changes = [] := by
    have h := processBranches_all_logfail cfg v w (selectedBranches cfg w)
      (pollStart cfg v w c0) hc0 hlogfail
    exact h.2
  have hlrPre : (processBranches cfg v w (pollStart cfg v w c0) pre).lastRev = c0 :=
    (processBranches_all_logfail cfg v w pre (pollStart cfg v w c0) hc0 hlogfail).1
  have hPreNe : (processBranches cfg v w (pollStart cfg v w c0) pre).lastRev ≠ [] := by
    rw [hlrPre]; exact hc0
  have step := processBranch_ok_logfail cfg v w
    (processBranches cfg v w (pollStart cfg v w c0) pre) b hrpb hPreNe (hlogfail _)
  have hrevs_step : dictGet
      (processBranch cfg v w (processBranches cfg v w (pollStart cfg v w c0) pre) b).revs
      b = some (resolvedTip cfg w b) := by
    rw [step]
    exact dictGet_dictSet_self _ _ _
  have herr_step : Event.logErr ∈
      (processBranch cfg v w (processBranches cfg v w (pollStart cfg v w c0) pre) b).events := by
    rw [step]
    exact List.mem_append_right _ (List.mem_singleton.mpr rfl)
  refine ⟨by rw [hpoll], by rw [hpoll]; exact hchgAll, ?_, ?_⟩
  · rw [hpoll]
    show dictGet (processBranches cfg v w (pollStart cfg v w c0)
      (selectedBranches cfg w)).revs b = some (resolvedTip cfg w b)
    rw [hsplit, processBranches_revs_ne cfg v w _ post b hbpost]
    exact hrevs_step
  · rw [hpoll]
    show Event.logErr ∈ (processBranches cfg v w (pollStart cfg v w c0)
      (selectedBranches cfg w)).events
    rw [hsplit]
    exact processBranches_events_mono cfg v w _ post _ herr_step

/-- C5 witness: the `test_poll_failLog` world — the single revision-list
command fails, the poll still completes with no changes, one logged error,
and the cursor advanced from `fa3a…` to `4423…`. -/
theorem C5_log_failure_witness :
    (∀ args, (wFailLog.exec "log" args).1 ≠ 0) ∧
    dictGet lastRevFailLog "master" = some shaFa3a ∧
    (poll cfgBase true lastRevFailLog wFailLog).changes = [] ∧
    dictGet (poll cfgBase true lastRevFailLog wFailLog).lastRev "master" =
      some (resolvedTip cfgBase wFailLog "master") ∧
    Event.logErr ∈ (poll cfgBase true lastRevFailLog wFailLog).events :=
  ⟨fun _ => Nat.one_ne_zero, by decide,
    (C5_log_failure_soft cfgBase wFailLog lastRevFailLog (1, 7) [] [] "master"
      rfl rfl rfl rfl (by decide) rfl (by decide) (List.not_mem_nil "master")
      (fun _ => Nat.one_ne_zero) (by decide)).2.1,
    (C5_log_failure_soft cfgBase wFailLog lastRevFailLog (1, 7) [] [] "master"
      rfl rfl rfl rfl (by decide) rfl (by decide) (List.not_mem_nil "master")
      (fun _ => Nat.one_ne_zero) (by decide)).2.2.1,
    (C5_log_failure_soft cfgBase wFailLog lastRevFailLog (1, 7) [] [] "master"
      rfl rfl rfl rfl (by decide) rfl (by decide) (List.not_mem_nil "master")
      (fun _ => Nat.one_ne_zero) (by decide)).2.2.2⟩

/-- C6: a polled branch whose `rev-parse` exits non-zero neither aborts the
poll nor raises: the error is logged, the branch's cursor entry is not
advanced (it stays whatever the pre-poll cursor held for it), and the
remaining branches are still processed — every selected branch's `rev-parse`
is issued. -/
theorem C6_revparse_failure_soft (cfg : Config) (w : World) (c0 : Dict)
    (v : Nat × Nat) (pre post : List String) (b : String)
    (hver : parseGitVersion (w.exec "--version" []).2 = some v)
    (hssh : cfg.sshPrivateKey = none)
    (hinit : (w.exec "init" ["--bare", cfg.workdir]).1 = 0)
    (hls : (w.exec "ls-remote" ["--refs", cfg.repourl]).1 = 0)
    (hsel : selectedBranches cfg w = pre ++ b :: post)
    (hfetch : (w.exec "fetch" (fetchArgs cfg w)).1 = 0)
    (hnodup : ((pre ++ b :: post).map removeHeads).Nodup)
    (hrpb : (w.exec "rev-parse" [trackerBranch cfg.repourl b]).1 ≠ 0) :
    (poll cfg true c0 w).ok = true ∧
    dictGet (poll cfg true c0 w).lastRev b = dictGet c0 b ∧
    (poll cfg true c0 w).changes.filter (fun c => c.branch == removeHeads b) = [] ∧
    (∀ q ∈ pre ++ b :: post,
      Event.cmd ⟨[], "rev-parse", [trackerBranch cfg.repourl q], []⟩ ∈
        (poll cfg true c0 w).events) ∧
    Event.logErr ∈ (poll cfg true c0 w).events := by
  have hnd : (pre ++ b :: post).Nodup := hnodup.of_map
  have hbpre : b ∉ pre := by
    intro hb
    rcases List.nodup_append.mp hnd with ⟨_, _, hdisj⟩
    exact hdisj hb (List.mem_cons_self _ _)
  have hbpost : b ∉ post := by
    rcases List.nodup_append.mp hnd with ⟨_, hnd2, _⟩
    exact (List.nodup_cons.mp hnd2).1
  have hrhpost : ∀ q ∈ post, (removeHeads q == removeHeads b) = false := by
    intro q hq
    rw [List.map_append, List.map_cons] at hnodup
    rcases List.nodup_append.mp hnodup with ⟨_, hnd2, _⟩
    have hbn : removeHeads b ∉ post.map removeHeads := (List.nodup_cons.mp hnd2).1
    refine beq_eq_false_iff_ne.mpr ?_
    intro hh
    exact hbn (hh ▸ List.mem_map_of_mem removeHeads hq)
  have hrhpre : ∀ q ∈ pre, (removeHeads q == removeHeads b) = false := by
    intro q hq
    rw [List.map_append, List.map_cons] at hnodup
    rcases List.nodup_append.mp hnodup with ⟨_, _, hdisj⟩
    refine beq_eq_false_iff_ne.mpr ?_
    intro hh
    exact hdisj (List.mem_map_of_mem removeHeads hq) (hh ▸ List.mem_cons_self _ _)
  have hfeat : ¬(cfg.sshPrivateKey.isSome = true ∧ ¬versionAtLeast v 2 3 = true) := by
    simp [hssh]
  have hpoll := poll_completes cfg w c0 v hver hfeat hinit hls hfetch
  have hsplit : processBranches cfg v w (pollStart cfg v w c0) (selectedBranches cfg w) =
      processBranches cfg v w
        (processBranch cfg v w (processBranches cfg v w (pollStart cfg v w c0) pre) b)
        post := by
    rw [hsel, processBranches_append]
    rfl
  have hlrPreB : dictGet (processBranches cfg v w (pollStart cfg v w c0) pre).lastRev b =
      dictGet c0 b :=
    processBranches_lastRevGet_ne cfg v w (pollStart cfg v w c0) pre b hbpre
  have hrevsPreB : dictGet (processBranches cfg v w (pollStart cfg v w c0) pre).revs b =
      none :=
    processBranches_revs_ne cfg v w (pollStart cfg v w c0) pre b hbpre
  have hstep := processBranch_rpfail cfg v w
    (processBranches cfg v w (pollStart cfg v w c0) pre) b hrpb
  have hstep_revs : dictGet
      (processBranch cfg v w (processBranches cfg v w (pollStart cfg v w c0) pre) b).revs
      b = dictGet c0 b := by
    rw [hstep]
    cases hd : dictGet (processBranches cfg v w (pollStart cfg v w c0) pre).lastRev b with
    | none =>
        rw [hd] at hlrPreB
        show dictGet (processBranches cfg v w (pollStart cfg v w c0) pre).revs b =
          dictGet c0 b
        rw [hrevsPreB, ← hlrPreB]
    | some old =>
        rw [hd] at hlrPreB
        show dictGet (dictSet
          (processBranches cfg v w (pollStart cfg v w c0) pre).revs b old) b = dictGet c0 b
        rw [dictGet_dictSet_self, ← hlrPreB]
  have hstep_chg : (processBranch cfg v w
      (processBranches cfg v w (pollStart cfg v w c0) pre) b).changes =
      (processBranches cfg v w (pollStart cfg v w c0) pre).changes := by
    rw [hstep]
    cases hd : dictGet (processBranches cfg v w (pollStart cfg v w c0) pre).lastRev b <;>
      rfl
  have hstep_err : Event.logErr ∈ (processBranch cfg v w
      (processBranches cfg v w (pollStart cfg v w c0) pre) b).events := by
    rw [hstep]
    cases hd : dictGet (processBranches cfg v w (pollStart cfg v w c0) pre).lastRev b <;>
      exact List.mem_append_right _ (List.mem_singleton.mpr rfl)
  refine ⟨by rw [hpoll], ?_, ?_, ?_, ?_⟩
  · rw [hpoll]
    show dictGet (processBranches cfg v w (pollStart cfg v w c0)
      (selectedBranches cfg w)).revs b = dictGet c0 b
    rw [hsplit, processBranches_revs_ne cfg v w _ post b hbpost]
    exact hstep_revs
  · rw [hpoll]
    show ((processBranches cfg v w (pollStart cfg v w c0)
        (selectedBranches cfg w)).changes.filter
        (fun c => c.branch == removeHeads b)) = []
    rw [hsplit, processBranches_changes_filter cfg v w _ post (removeHeads b) hrhpost,
      hstep_chg, processBranches_changes_filter cfg v w _ pre (removeHeads b) hrhpre]
    rfl
  · intro q hq
    rw [hpoll]
    show Event.cmd ⟨[], "rev-parse", [trackerBranch cfg.repourl q], []⟩ ∈
      (processBranches cfg v w (pollStart cfg v w c0) (selectedBranches cfg w)).events
    rw [hsel]
    exact processBranches_rp_events cfg v w _ _ q hq
  · rw [hpoll]
    show Event.logErr ∈ (processBranches cfg v w (pollStart cfg v w c0)
      (selectedBranches cfg w)).events
    rw [hsplit]
    exact processBranches_events_mono cfg v w _ post _ hstep_err

/-- C6 witness: the `test_poll_failRevParse` world — `rev-parse` of the only
polled branch fails; the poll completes, logs one error, emits nothing and
leaves the (empty) cursor entry untouched. -/
theorem C6_revparse_failure_witness :
    (wFailRevParse.exec "rev-parse"
      [trackerBranch repoUrl "master"]).1 ≠ 0 ∧
    dictGet (poll cfgBase true [] wFailRevParse).lastRev "master" =
      dictGet [] "master" ∧
    (poll cfgBase true [] wFailRevParse).changes.filter
      (fun c => c.branch == removeHeads "master") = [] ∧
    Event.logErr ∈ (poll cfgBase true [] wFailRevParse).events :=
  ⟨by decide,
    (C6_revparse_failure_soft cfgBase wFailRevParse [] (1, 7) [] [] "master"
      rfl rfl rfl rfl (by decide) rfl (by decide) (by decide)).2.1,
    (C6_revparse_failure_soft cfgBase wFailRevParse [] (1, 7) [] [] "master"
      rfl rfl rfl rfl (by decide) rfl (by decide) (by decide)).2.2.1,
    (C6_revparse_failure_soft cfgBase wFailRevParse [] (1, 7) [] [] "master"
      rfl rfl rfl rfl (by decide) rfl (by decide) (by decide)).2.2.2.2⟩

theorem dictKeys_map_pairs (l : List String) (f : String → String) :
    dictKeys (l.map (fun q => (q, f q))) = l := by
  induction l with
  | nil => rfl
  | cons a l ih => simpa [dictKeys] using ih

/-- C7: a poll in which every polled branch's newly resolved tip equals its
cursor entry (and the cursor holds exactly the polled branches) emits zero
change records and leaves the cursor identical, in memory and as
persisted. -/
theorem C7_nothing_new_identity (cfg : Config) (w : World) (c0 : Dict)
    (v : Nat × Nat)
    (hver : parseGitVersion (w.exec "--version" []).2 = some v)
    (hssh : cfg.sshPrivateKey = none)
    (hinit : (w.exec "init" ["--bare", cfg.workdir]).1 = 0)
    (hls : (w.exec "ls-remote" ["--refs", cfg.repourl]).1 = 0)
    (hfetch : (w.exec "fetch" (fetchArgs cfg w)).1 = 0)
    (hnd : (selectedBranches cfg w).Nodup)
    (hc0 : c0 = (selectedBranches cfg w).map (fun q => (q, resolvedTip cfg w q)))
    (hrp : ∀ q ∈ selectedBranches cfg w,
      (w.exec "rev-parse" [trackerBranch cfg.repourl q]).1 = 0)
    (hout : ∀ q ∈ selectedBranches cfg w,
      (w.exec "log" (logArgs c0 (resolvedTip cfg w q))).2 = "")
    (hlog : ∀ args, (w.exec "log" args).1 = 0) :
    (poll cfg true c0 w).ok = true ∧
    (poll cfg true c0 w).changes = [] ∧
    (poll cfg true c0 w).lastRev = c0 ∧
    (poll cfg true c0 w).persisted = some c0 := by
  have hfeat : ¬(cfg.sshPrivateKey.isSome = true ∧ ¬versionAtLeast v 2 3 = true) := by
    simp [hssh]
  have hpoll := poll_completes cfg w c0 v hver hfeat hinit hls hfetch
  by_cases hselnil : selectedBranches cfg w = []
  · have hc0nil : c0 = [] := by rw [hc0, hselnil]; rfl
    refine ⟨by rw [hpoll], ?_, ?_, ?_⟩
    · rw [hpoll, hselnil]; rfl
    · rw [hpoll, hselnil, hc0nil]; rfl
    · rw [hpoll, hselnil, hc0nil]; rfl
  · have hc0ne : c0 ≠ [] := by
      rw [hc0]
      intro hh
      exact hselnil (List.map_eq_nil_iff.mp hh)
    have hkeysnd : (dictKeys c0).Nodup := by
      have : dictKeys c0 = selectedBranches cfg w := by
        rw [hc0]
        exact dictKeys_map_pairs _ _
      rw [this]
      exact hnd
    have hget : ∀ q ∈ selectedBranches cfg w,
        dictGet c0 q = some (resolvedTip cfg w q) := by
      intro q hq
      rw [hc0]
      exact dictGet_map_pairs _ _ _ hq
    obtain ⟨h1, h2, h3⟩ := processBranches_identity cfg v w c0 hkeysnd hc0ne
      (selectedBranches cfg w) (pollStart cfg v w c0) rfl hrp hget hout hlog
    have hrevs : (processBranches cfg v w (pollStart cfg v w c0)
        (selectedBranches cfg w)).revs = c0 := by
      refine h3.trans ?_
      have hfold := foldl_dictSet_of_fresh (selectedBranches cfg w)
        (resolvedTip cfg w) [] hnd (fun q _ => List.not_mem_nil q)
      rw [show (pollStart cfg v w c0).revs = [] from rfl, hfold, hc0]
      rfl
    have hchg : (processBranches cfg v w (pollStart cfg v w c0)
        (selectedBranches cfg w)).changes = [] := h2
    exact ⟨by rw [hpoll], by rw [hpoll]; exact hchg, by rw [hpoll]; exact hrevs,
      by rw [hpoll, hrevs]⟩

/-- C7 witness: the `test_poll_nothingNew` world — the single branch's tip
equals its cursor entry; zero changes, cursor and persisted state
unchanged. -/
theorem C7_nothing_new_witness :
    lastRevNothingNew =
      (selectedBranches cfgBase wNothingNew).map
        (fun q => (q, resolvedTip cfgBase wNothingNew q)) ∧
    (poll cfgBase true lastRevNothingNew wNothingNew).changes = [] ∧
    (poll cfgBase true lastRevNothingNew wNothingNew).lastRev = lastRevNothingNew ∧
    (poll cfgBase true lastRevNothingNew wNothingNew).persisted =
      some lastRevNothingNew :=
  ⟨by decide,
    (C7_nothing_new_identity cfgBase wNothingNew lastRevNothingNew (1, 7)
      rfl rfl rfl rfl rfl (by decide) (by decide) (by decide) (by decide)
      (fun _ => rfl)).2.1,
    (C7_nothing_new_identity cfgBase wNothingNew lastRevNothingNew (1, 7)
      rfl rfl rfl rfl rfl (by decide) (by decide) (by decide) (by decide)
      (fun _ => rfl)).2.2.1,
    (C7_nothing_new_identity cfgBase wNothingNew lastRevNothingNew (1, 7)
      rfl rfl rfl rfl rfl (by decide) (by decide) (by decide) (by decide)
      (fun _ => rfl)).2.2.2⟩

/-- C2 witness: the `test_poll_multipleBranches_initial` world — empty
cursor, branches `master`, `release` and the absent `not_on_remote` — ends
with no changes and the two resolved tips as its cursor. -/
theorem C2_initial_poll_witness :
    parseGitVersion (wInitial.exec "--version" []).2 = some (1, 7) ∧
    (poll cfgInitial true [] wInitial).changes = [] ∧
    (poll cfgInitial true [] wInitial).lastRev =
      resolvedTips cfgInitial wInitial (selectedBranches cfgInitial wInitial) ∧
    resolvedTips cfgInitial wInitial (selectedBranches cfgInitial wInitial) =
      [("master", shaM4423), ("release", shaR9118)] :=
  ⟨rfl,
    (C2_initial_poll_amended cfgInitial wInitial (1, 7) rfl rfl rfl rfl rfl).2.1,
    (C2_initial_poll_amended cfgInitial wInitial (1, 7) rfl rfl rfl rfl rfl).2.2.1,
    by decide⟩

end GitPoller
